import Mathlib

/-!
A simple interactive shell (`src/lab.c`): shallow embedding and properties.

The C functions of `src/lab.c` are embedded as Lean functions of the same
names.

* A C string is the list of its characters before the terminator (`CStr`).
  A `char` is a Lean `Char`; the only characters the code ever tests for are
  ASCII ones (`isspace`, the delimiter `" "`, the terminator).
* A mutable character buffer (the argument of `trim_white`) is a `List Char`
  that holds terminators explicitly; a `char *` into it is an index.
* A `char **` argument vector is the list of its slots before the trailing
  sentinel; a slot is `none` where the code stored `NULL` in it.
* Library and system calls whose result the program cannot determine
  (`malloc`, `strdup`, `sysconf`, `getenv`, `getpwuid`, `chdir`,
  `history_list`, `isatty`, `getpid`, `setpgid`, `tcsetpgrp`, `tcgetattr`) are
  parameters (oracles); `strtok` and `getopt` follow their documentation.
* What the process does to the outside world (output, `chdir`, `free`,
  job-control calls, ignored signals) is recorded in a trace of events.
* A function that may call `exit` returns an `Outcome`: either it returns to
  its caller or the process has terminated with a status.
-/

namespace Lab

/-! ## Strings and buffers -/

/-- The characters of a C string, terminator excluded. -/
abbrev CStr := List Char

/-- The string terminator. -/
def NUL : Char := Char.ofNat 0

/-- The `isspace` of `<ctype.h>` in the C locale: space, `\t`, `\n`, `\v`, `\f`, `\r`. -/
def isspace (c : Char) : Bool :=
  c == ' ' || c == '\t' || c == '\n' || c == Char.ofNat 11 || c == Char.ofNat 12 || c == '\r'

/-- The character a pointer into a buffer points at (`*p`); a read outside the
buffer, which a terminated buffer never causes, reads as the terminator. -/
def deref (mem : List Char) (p : Nat) : Char := mem.getD p NUL

/-- The C string a pointer into a buffer designates: the characters from `p`
up to the first terminator. -/
def cstr (mem : List Char) (p : Nat) : CStr := (mem.drop p).takeWhile (fun c => c != NUL)

/-- The `strlen` of `<string.h>`. -/
def strlen (mem : List Char) (p : Nat) : Nat := (cstr mem p).length

/-! ## `trim_white` (lab.c, lines 108-126) -/

/-- The first loop of `trim_white`, `while (isspace(*line)) line++;`, run on the
characters from `line` on; the result is the final value of `line`. -/
def skipLeading : List Char → Nat → Nat
  | [], line => line
  | c :: rest, line => if isspace c then skipLeading rest (line + 1) else line

/-- The second loop of `trim_white`,
`while (end > line && isspace(*end)) { *end = 0; end--; }`, by recursion on
`end`; the result is the buffer after the loop. -/
def trimTrailing (line : Nat) : Nat → List Char → List Char
  | 0, mem => mem
  | e + 1, mem =>
    if e + 1 > line && isspace (deref mem (e + 1)) then
      trimTrailing line e (mem.set (e + 1) NUL)
    else mem

/-- The function `trim_white`: the returned pointer (`none` for `NULL`) and the buffer after the
call. -/
def trim_white (mem : List Char) (line : Option Nat) : Option Nat × List Char :=
  match line with
  | none => (none, mem)
  | some l =>
    let line := skipLeading (mem.drop l) l
    if deref mem line = NUL then (some line, mem)
    else
      let e := line + strlen mem line - 1
      (some line, trimTrailing line e mem)

/-! ## `cmd_parse` (lab.c, lines 60-91) -/

/-- The constant `_POSIX_ARG_MAX` of `<bits/posix1_lim.h>`. -/
def POSIX_ARG_MAX : Int := 4096

/-- One call of `strtok` on the private copy of the line. The state of `strtok`
is the unread remainder of the copy. Leading delimiters are skipped; at the end
of the string the result is `NULL`; otherwise the token runs up to the next
delimiter or the end, and the remainder starts after that delimiter. -/
def strtok (delim : CStr) (rest : CStr) : Option CStr × CStr :=
  let s := rest.dropWhile (fun c => delim.contains c)
  if s = [] then (none, [])
  else (some (s.takeWhile (fun c => !delim.contains c)),
        (s.dropWhile (fun c => !delim.contains c)).drop 1)

/-- The function `strdup` under an allocation oracle: `NULL` when the allocation fails. -/
def strdup (ok : Bool) (s : CStr) : Option CStr := if ok then some s else none

/-- The loop of `cmd_parse`,
`while (token && count < arg_max - 1) { args[count++] = strdup(token); token = strtok(NULL, " "); }`,
by recursion on `arg_max - 1 - count`. The result lists the slots
`args[count ..]` the loop writes. Allocation request number `k` of the call
succeeds iff `alloc k`; the duplicate of token number `count` is request
`count + 2`. -/
def parseLoop (alloc : Nat → Bool) : Nat → Option CStr → CStr → Nat → List (Option CStr)
  | 0, _, _, _ => []
  | _ + 1, none, _, _ => []
  | n + 1, some token, rest, count =>
    strdup (alloc (count + 2)) token ::
      parseLoop alloc n (strtok [' '] rest).1 (strtok [' '] rest).2 (count + 1)

/-- The function `cmd_parse`. `sc_arg_max` is the result of `sysconf(_SC_ARG_MAX)`; `alloc` is the
allocation oracle (request 0 is the `malloc` of the vector, request 1 the
`strdup` of the line, request `i + 2` the `strdup` of token `i`). The result is
`none` for `NULL`, otherwise the slots `args[0 .. count-1]`; `args[count]` is
the sentinel. `count` is an `int` in the source and is modelled unbounded. -/
def cmd_parse (sc_arg_max : Int) (alloc : Nat → Bool) (line : Option CStr) :
    Option (List (Option CStr)) :=
  match line with
  | none => none
  | some line =>
    let arg_max := if sc_arg_max ≤ 0 then POSIX_ARG_MAX else sc_arg_max
    if !alloc 0 then none
    else if !alloc 1 then none
    else
      some (parseLoop alloc (arg_max - 1).toNat (strtok [' '] line).1 (strtok [' '] line).2 0)

/-- The size of a pointer, `sizeof(char *)`, on the 64-bit platform. -/
def SIZEOF_PTR : Nat := 8

/-- The byte count `cmd_parse` passes to `malloc` at line 68,
`sizeof(char *) * arg_max`: the product is computed in the unsigned 64-bit type
`size_t`, so it is reduced modulo `2^64`. -/
def args_malloc_size (sc_arg_max : Int) : Nat :=
  let arg_max := if sc_arg_max ≤ 0 then POSIX_ARG_MAX else sc_arg_max
  (SIZEOF_PTR * arg_max.toNat) % 18446744073709551616

/-- The number of `char *` slots the block requested for `args` has. -/
def args_slots (sc_arg_max : Int) : Nat := args_malloc_size sc_arg_max / SIZEOF_PTR

/-- The logical argument vector a consumer sees in an array of slots: the
entries before the first `NULL`. -/
def argvOf : List (Option CStr) → List CStr
  | some s :: rest => s :: argvOf rest
  | _ => []

/-! ## The process and its environment -/

/-- The job-control signals the program names. -/
inductive Signal where
  | SIGINT
  | SIGQUIT
  | SIGTSTP
  | SIGTTIN
  | SIGTTOU
  deriving DecidableEq, Repr

/-- What the process does to the outside world, in order. -/
inductive Event where
  /-- Text written to standard output by `printf`. -/
  | out (text : CStr)
  /-- Text written to the error stream by `fprintf(stderr, ...)`. -/
  | err (text : CStr)
  /-- A call `perror(tag)`. -/
  | perror (tag : CStr)
  /-- A call `chdir(path)`. -/
  | chdir (path : CStr)
  /-- A call `free(s)` on an owned string. -/
  | free (s : CStr)
  /-- A call `setpgid(pid, pgid)`. -/
  | setpgid (pid pgid : Int)
  /-- A call `tcsetpgrp(fd, pgid)`. -/
  | tcsetpgrp (fd pgid : Int)
  /-- A call `tcgetattr(fd, ...)`. -/
  | tcgetattr (fd : Int)
  /-- A call `signal(sig, SIG_IGN)`. -/
  | ignore (sig : Signal)
  deriving DecidableEq, Repr

/-- The system as the program sees it (oracles for the calls it makes). -/
structure Sys where
  /-- The function `getenv`: `none` when the variable is unset. -/
  getenv : CStr → Option CStr
  /-- The `pw_dir` of `getpwuid(getuid())`: `none` when there is no entry. -/
  pw_dir : Option CStr
  /-- The call `chdir(path)` made in working directory `cwd`: the new working
  directory when it succeeds, `none` when it fails. -/
  chdir : (cwd : CStr) → (path : CStr) → Option CStr
  /-- The result of `history_list()`: `none` for `NULL`, else the lines of the entries, oldest first. -/
  history_list : Option (List CStr)
  /-- The variable `history_base` of readline. -/
  history_base : Int

/-- The mutable state of the process. -/
structure Proc where
  /-- The working directory. -/
  cwd : CStr
  /-- The events so far, oldest first. -/
  trace : List Event
  deriving DecidableEq, Repr

/-- The saved terminal modes (`struct termios`), as an uninterpreted code. -/
abbrev Termios := Nat

/-- The `struct shell` of `lab.h`, with the fields `lab.c` uses. -/
structure Shell where
  shell_is_interactive : Int
  shell_pgid : Int
  shell_tmodes : Termios
  shell_terminal : Int
  /-- The prompt; `none` is `NULL`. -/
  prompt : Option CStr
  deriving DecidableEq, Repr

/-- How a call ends: it returns a value to its caller, or `exit` was called
inside it. Both carry the session state behind the `struct shell *` (`none` for
a null pointer) and the process state at that moment. -/
inductive Outcome (α : Type) where
  | returned (value : α) (sh : Option Shell) (p : Proc)
  | exited (status : Int) (sh : Option Shell) (p : Proc)

/-- Append one event to the trace. -/
def Proc.emit (p : Proc) (e : Event) : Proc := { p with trace := p.trace ++ [e] }

/-! ## `get_prompt` (lab.c, lines 17-27) -/

/-- The function `get_prompt`; `malloc_ok` is the allocation oracle and `none` is `NULL`. -/
def get_prompt (sys : Sys) (malloc_ok : Bool) (env : CStr) : Option CStr :=
  let env_prompt := sys.getenv env
  let prompt := match env_prompt with
    | some v => v
    | none => "shell>".toList
  if malloc_ok then some prompt else none

/-! ## `change_dir` (lab.c, lines 31-56) -/

/-- The function `change_dir` on the argument vector `dir` (the slots before the sentinel, so
`dir[1]` is `NULL` exactly when there is no second element): the `int` it
returns and the process state after the call. A `NULL` argument of `%s` is
printed as `(null)`. -/
def change_dir (sys : Sys) (dir : List CStr) (p : Proc) : Int × Proc :=
  let resolved : Proc × Option CStr :=
    match dir[1]? with
    | some d => (p, some d)
    | none =>
      let home := sys.getenv "HOME".toList
      let p1 := p.emit (.out ("DEBUG: HOME directory detected as: ".toList
        ++ home.getD "(null)".toList ++ ['\n']))
      match home with
      | some h => (p1, some h)
      | none =>
        match sys.pw_dir with
        | some d => (p1, some d)
        | none => (p1.emit (.err "cd: Cannot find home directory\n".toList), none)
  match resolved with
  | (p2, none) => (-1, p2)
  | (p2, some target) =>
    let p3 := p2.emit (.chdir target)
    match sys.chdir p2.cwd target with
    | some d => (0, { p3 with cwd := d })
    | none => (-1, p3.emit (.perror "cd".toList))

/-! ## `sh_destroy` (lab.c, lines 200-208) -/

/-- The function `sh_destroy`. -/
def sh_destroy (sh : Option Shell) (p : Proc) : Outcome Unit :=
  match sh with
  | none => .returned () none p
  | some s =>
    match s.prompt with
    | some pr => .exited 0 (some { s with prompt := none }) (p.emit (.free pr))
    | none => .exited 0 (some s) p

/-! ## `do_builtin` (lab.c, lines 129-149) -/

/-- The conversion `%d` of `printf`. -/
def fmt_d (n : Int) : CStr :=
  if n < 0 then '-' :: Nat.toDigits 10 n.natAbs else Nat.toDigits 10 n.toNat

/-- The constant `INT_MAX` of `<limits.h>` for a 32-bit `int`. -/
def INT_MAX : Int := 2147483647

/-- The constant `INT_MIN` of `<limits.h>` for a 32-bit `int`. -/
def INT_MIN : Int := -2147483648

/-- The value a 32-bit `int` holds for the mathematical result `n`: `n` itself
inside the range of `int`, and `n` reduced modulo `2^32` into that range
outside it (two's complement wraparound). -/
def int_wrap (n : Int) : Int := (n + 2147483648) % 4294967296 - 2147483648

/-- The sum `a + b` of two `int` values as the machine computes it. -/
def int_add (a b : Int) : Int := int_wrap (a + b)

/-- The loop `for (int i = 0; hist_list[i]; i++) printf("%d: %s\n", i + history_base, hist_list[i]->line);`
from index `i` on: the lines it prints. The sum `i + history_base` is an `int`
sum. The index `i` itself stays in the range of `int` for a log of at most
`INT_MAX` entries. -/
def printHistory (history_base : Int) : List CStr → Nat → List Event
  | [], _ => []
  | line :: rest, i =>
    .out (fmt_d (int_add (i : Int) history_base) ++ ": ".toList ++ line ++ ['\n'])
      :: printHistory history_base rest (i + 1)

/-- The function `do_builtin`. `argv` is `none` for a null vector, else the elements before the
sentinel (so `argv[0] == NULL` exactly for the empty list). -/
def do_builtin (sys : Sys) (sh : Option Shell) (argv : Option (List CStr)) (p : Proc) :
    Outcome Bool :=
  match argv with
  | none => .returned false sh p
  | some [] => .returned false sh p
  | some (arg0 :: rest) =>
    if arg0 = "exit".toList then
      match sh_destroy sh p with
      | .exited status sh1 p1 => .exited status sh1 p1
      | .returned _ sh1 p1 => .exited 0 sh1 p1
    else if arg0 = "cd".toList then
      let r := change_dir sys (arg0 :: rest) p
      if r.1 ≠ 0 then
        .returned true sh (r.2.emit (.err "cd: Change directory was failed\n".toList))
      else .returned true sh r.2
    else if arg0 = "history".toList then
      match sys.history_list with
      | some hist_list =>
        .returned false sh { p with trace := p.trace ++ printHistory sys.history_base hist_list 0 }
      | none => .returned false sh p
    else .returned false sh p

/-! ## `sh_init` (lab.c, lines 153-196) -/

/-- The constant `STDIN_FILENO` of `<unistd.h>`. -/
def STDIN_FILENO : Int := 0

/-- The constant `EXIT_FAILURE` of `<stdlib.h>`. -/
def EXIT_FAILURE : Int := 1

/-- The results of the calls `sh_init` makes on the terminal and the process
(oracles). -/
structure Tty where
  /-- The result of `isatty(STDIN_FILENO)`: 1 for a terminal, else 0. -/
  isatty : Int
  /-- The result of `getpid()`. -/
  getpid : Int
  /-- The result of `setpgid(...)`: negative on failure. -/
  setpgid : Int
  /-- The result of `tcsetpgrp(...)`: negative on failure. -/
  tcsetpgrp : Int
  /-- The result of `tcgetattr(...)`: negative on failure. -/
  tcgetattr : Int
  /-- The terminal modes `tcgetattr` stores when it succeeds. -/
  tmodes : Termios
  /-- Whether the `malloc` inside `get_prompt` succeeds. -/
  malloc_ok : Bool

/-- The function `sh_init`. -/
def sh_init (sys : Sys) (tty : Tty) (sh : Option Shell) (p : Proc) : Outcome Unit :=
  match sh with
  | none => .exited EXIT_FAILURE none (p.emit (.err "sh_init: shell pointer is NULL\n".toList))
  | some s =>
    let s1 := { s with shell_terminal := STDIN_FILENO }
    let s2 := { s1 with shell_is_interactive := tty.isatty }
    if s2.shell_is_interactive = 0 then
      .exited EXIT_FAILURE (some s2) (p.emit (.err "sh_init: Not running interactively.\n".toList))
    else
      let s3 := { s2 with prompt := get_prompt sys tty.malloc_ok "MY_PROMPT".toList }
      let s4 := { s3 with shell_pgid := tty.getpid }
      let p1 := p.emit (.setpgid s4.shell_pgid s4.shell_pgid)
      if tty.setpgid < 0 then
        .exited EXIT_FAILURE (some s4) (p1.emit (.perror "sh_init: setpgid failed".toList))
      else
        let p2 := p1.emit (.tcsetpgrp s4.shell_terminal s4.shell_pgid)
        if tty.tcsetpgrp < 0 then
          .exited EXIT_FAILURE (some s4) (p2.emit (.perror "sh_init: tcsetpgrp failed".toList))
        else
          let p3 := p2.emit (.tcgetattr s4.shell_terminal)
          if tty.tcgetattr < 0 then
            .exited EXIT_FAILURE (some s4) (p3.emit (.perror "sh_init: tcgetattr failed".toList))
          else
            let s5 := { s4 with shell_tmodes := tty.tmodes }
            let p4 := { p3 with trace := p3.trace ++
              [Event.ignore Signal.SIGINT, Event.ignore Signal.SIGQUIT,
               Event.ignore Signal.SIGTSTP, Event.ignore Signal.SIGTTIN,
               Event.ignore Signal.SIGTTOU] }
            .returned () (some s5)
              (p4.emit (.out ("Shell initialized: PGID=".toList ++ fmt_d s5.shell_pgid
                ++ ", Terminal FD=".toList ++ fmt_d s5.shell_terminal ++ ['\n'])))

/-! ## `parse_args` (lab.c, lines 212-225) -/

/-- How a call that has no session state ends: it returns to its caller, or
`exit` was called inside it. -/
inductive Ended where
  | returned (p : Proc)
  | exited (status : Int) (p : Proc)
  deriving DecidableEq, Repr

/-- The option characters the successive calls `getopt(argc, argv, "v")` examine,
for the elements after `argv[0]`: scanning stops at an element `--`; an element
that starts with `-` and has further characters contributes those characters;
any other element is not an option and is passed over. -/
def getoptChars : List CStr → List Char
  | [] => []
  | arg :: rest =>
    if arg = ['-', '-'] then []
    else
      match arg with
      | '-' :: c :: cs => (c :: cs) ++ getoptChars rest
      | _ => getoptChars rest

/-- The loop `while ((opt = getopt(argc, argv, "v")) != -1) switch (opt) ...` of
`parse_args` over the option characters still to come. For a character other
than `v`, `getopt` prints its own diagnostic and returns `?`, which the
`switch` takes to `default`. `prog` is `argv[0]`; `major` and `minor` are
`lab_VERSION_MAJOR` and `lab_VERSION_MINOR`. -/
def parseOptions (major minor : Int) (prog : CStr) : List Char → Proc → Ended
  | [], p => .returned p
  | opt :: more, p =>
    if opt = 'v' then
      parseOptions major minor prog more
        (p.emit (.out ("Shell Version: ".toList ++ fmt_d major ++ ['.'] ++ fmt_d minor ++ ['\n'])))
    else
      .exited EXIT_FAILURE
        ((p.emit (.err (prog ++ ": invalid option -- ".toList
            ++ [Char.ofNat 39, opt, Char.ofNat 39, '\n']))).emit
          (.err ("Usage: ".toList ++ prog ++ " [-v]\n".toList)))

/-- The function `parse_args` on the vector `argv` (`argc` is its length). -/
def parse_args (major minor : Int) (argv : List CStr) (p : Proc) : Ended :=
  parseOptions major minor (argv.headD "(null)".toList) (getoptChars argv.tail) p

/-! ## Vocabulary of the specification -/

/-- The space character test (0x20 only). -/
def isBlank (c : Char) : Bool := c == ' '

/-- The argument bound `B`: the queried limit when it is positive, else the
fixed fallback `_POSIX_ARG_MAX`. -/
def argBound (sc_arg_max : Int) : Int := if 0 < sc_arg_max then sc_arg_max else POSIX_ARG_MAX

/-- The tokens of a line for a separator set: its maximal runs of non-separator characters, in
order. -/
def tokensOf (sep : Char → Bool) (line : CStr) : List CStr :=
  (line.splitOnP sep).filter (fun t => !t.isEmpty)

/-- A line with its longest prefix and its longest suffix of `ws` characters removed. -/
def trimmed (ws : Char → Bool) (line : CStr) : CStr :=
  (line.dropWhile ws).rdropWhile ws

/-- A string with every maximal run of `ws` characters replaced by one space. -/
def squeeze (ws : Char → Bool) : CStr → CStr
  | [] => []
  | c :: rest =>
    if ws c then
      match rest with
      | [] => [' ']
      | d :: _ => if ws d then squeeze ws rest else ' ' :: squeeze ws rest
    else c :: squeeze ws rest

/-- The `ws`-collapsed form of the trimmed line. -/
def collapsed (ws : Char → Bool) (line : CStr) : CStr := squeeze ws (trimmed ws line)

/-- The elements of a vector joined with single spaces. -/
def joinSpaces (v : List CStr) : CStr := List.intercalate [' '] v

/-- The directory `change_dir` resolves before it calls `chdir` (lab.c, lines
32-48): the second element of the vector if there is one, else the value of
`HOME` if it is set, else the home directory of the password database; `none`
when none of them exists. -/
def resolvedTarget (sys : Sys) (dir : List CStr) : Option CStr :=
  match dir[1]? with
  | some d => some d
  | none =>
    match sys.getenv "HOME".toList with
    | some h => some h
    | none => sys.pw_dir

/-- The paths of the `chdir` calls in a trace, oldest first. -/
def chdirCalls : List Event → List CStr
  | [] => []
  | .chdir path :: rest => path :: chdirCalls rest
  | _ :: rest => chdirCalls rest

/-- The signals a trace has set to ignored, oldest first. -/
def ignoredSignals : List Event → List Signal
  | [] => []
  | .ignore sig :: rest => sig :: ignoredSignals rest
  | _ :: rest => ignoredSignals rest

/-- The calls of `setpgid`, `tcsetpgrp` and `tcgetattr` in a trace. -/
def jobControlCalls : List Event → List Event
  | [] => []
  | .setpgid pid pgid :: rest => .setpgid pid pgid :: jobControlCalls rest
  | .tcsetpgrp fd pgid :: rest => .tcsetpgrp fd pgid :: jobControlCalls rest
  | .tcgetattr fd :: rest => .tcgetattr fd :: jobControlCalls rest
  | _ :: rest => jobControlCalls rest

/-- Index `i` is a slot of the sentinel-terminated array that holds the vector
`v`: one of its elements or the sentinel, which sits at index `v.length`. -/
def slotInBounds (v : List CStr) (i : Nat) : Prop := i ≤ v.length

/-! ## Concrete environments for the examples -/

/-- A system with the given environment, in which `chdir` succeeds exactly on
the listed paths, the password database gives the home directory `/home/u`,
and there is no history. -/
def exampleSys (env : CStr → Option CStr) (dirs : List CStr) : Sys where
  getenv := env
  pw_dir := some "/home/u".toList
  chdir := fun _ path => if dirs.contains path then some path else none
  history_list := none
  history_base := 1

/-- An environment in which exactly one variable is set. -/
def envWith (name value : CStr) : CStr → Option CStr :=
  fun n => if n = name then some value else none

/-- A process in the directory `/` that has done nothing yet. -/
def exampleProc : Proc := { cwd := "/".toList, trace := [] }

/-- A terminal on which every call of `sh_init` succeeds, for the process 4242. -/
def exampleTty : Tty where
  isatty := 1
  getpid := 4242
  setpgid := 0
  tcsetpgrp := 0
  tcgetattr := 0
  tmodes := 7
  malloc_ok := true

/-- A session state as `main` hands it to `sh_init`: nothing set yet. -/
def freshShell : Shell where
  shell_is_interactive := 0
  shell_pgid := 0
  shell_tmodes := 0
  shell_terminal := 0
  prompt := none

/-! ## Lemmas on the loops of `trim_white` -/

theorem isspace_NUL : isspace NUL = false := by decide

theorem skipLeading_eq (s : List Char) (l : Nat) :
    skipLeading s l = l + (s.takeWhile isspace).length := by
  induction s generalizing l with
  | nil => simp [skipLeading]
  | cons c rest ih =>
    by_cases hc : isspace c = true
    · simp [skipLeading, hc, ih]; omega
    · simp [skipLeading, hc]

theorem rdropWhile_cons_of_neg (p : Char → Bool) (c : Char) (u : List Char) (hc : p c = false) :
    (c :: u).rdropWhile p = c :: u.rdropWhile p := by
  induction u using List.reverseRecOn with
  | nil => simp [List.rdropWhile, hc]
  | append_singleton v d ih =>
    by_cases hd : p d = true
    · rw [← List.cons_append, List.rdropWhile_concat_pos _ _ _ hd,
        List.rdropWhile_concat_pos _ _ _ hd, ih]
    · rw [← List.cons_append, List.rdropWhile_concat_neg _ _ _ hd,
        List.rdropWhile_concat_neg _ _ _ hd, List.cons_append]

theorem trimTrailing_eq (line : Nat) (u : List Char) :
    ∀ (P B : List Char), P.length = line + 1 →
      trimTrailing line (line + u.length) (P ++ u ++ B)
        = P ++ u.rdropWhile isspace
            ++ List.replicate (u.length - (u.rdropWhile isspace).length) NUL ++ B := by
  induction u using List.reverseRecOn with
  | nil =>
    intro P B hP
    cases line with
    | zero => simp [trimTrailing, List.rdropWhile]
    | succ n => simp [trimTrailing, List.rdropWhile]
  | append_singleton v d ih =>
    intro P B hP
    have hidx : line + (v ++ [d]).length = (line + v.length) + 1 := by simp; omega
    rw [hidx, trimTrailing]
    have hderef : deref (P ++ (v ++ [d]) ++ B) (line + v.length + 1) = d := by
      have : P ++ (v ++ [d]) ++ B = (P ++ v) ++ d :: B := by simp
      have h0 : line + v.length + 1 - (line + 1 + v.length) = 0 := by omega
      rw [this, deref, List.getD_eq_getElem?_getD, List.getElem?_append_right (by simp; omega)]
      simp [hP, h0]
    rw [hderef]
    by_cases hd : isspace d = true
    · have hset : (P ++ (v ++ [d]) ++ B).set (line + v.length + 1) NUL = P ++ v ++ (NUL :: B) := by
        have : P ++ (v ++ [d]) ++ B = (P ++ v) ++ d :: B := by simp
        have h0 : line + v.length + 1 - (line + 1 + v.length) = 0 := by omega
        rw [this, List.set_append_right _ _ (by simp; omega)]
        simp [hP, h0]
      have hgt : line + v.length + 1 > line := by omega
      simp only [hgt, hd, decide_True, Bool.and_self, if_true, hset]
      rw [ih P (NUL :: B) hP, List.rdropWhile_concat_pos _ _ _ hd]
      have hle : (v.rdropWhile isspace).length ≤ v.length :=
        (List.rdropWhile_prefix isspace v).length_le
      have hk : (v ++ [d]).length - (v.rdropWhile isspace).length
          = (v.length - (v.rdropWhile isspace).length) + 1 := by simp; omega
      rw [hk, List.replicate_succ']
      simp
    · simp only [hd, Bool.and_false, if_false]
      rw [List.rdropWhile_concat_neg _ _ _ hd]
      simp

theorem takeWhile_append_stop (p : Char → Bool) (s R : List Char) (x : Char) (hx : p x = false) :
    (s ++ x :: R).takeWhile p = s.takeWhile p := by
  induction s with
  | nil => simp [hx]
  | cons c rest ih =>
    by_cases hc : p c = true
    · simp [hc, ih]
    · simp [hc]

theorem cstr_append (A s R : List Char) (hs : NUL ∉ s) :
    cstr (A ++ s ++ NUL :: R) A.length = s := by
  have hd : (A ++ s ++ NUL :: R).drop A.length = s ++ NUL :: R := by
    rw [List.append_assoc, List.drop_left]
  rw [cstr, hd, takeWhile_append_stop _ _ _ _ (by simp)]
  rw [List.takeWhile_eq_self_iff]
  intro c hc
  have : c ≠ NUL := fun h => hs (h ▸ hc)
  simpa using this

theorem deref_append (A B : List Char) : deref (A ++ B) A.length = B.headD NUL := by
  cases B with
  | nil => simp [deref]
  | cons b rest =>
    rw [deref, List.getD_eq_getElem?_getD, List.getElem?_append_right (Nat.le_refl _)]
    simp

theorem dropWhile_head_not (p : Char → Bool) (s : List Char) (c : Char) (u : List Char)
    (h : s.dropWhile p = c :: u) : p c = false := by
  have := List.head?_dropWhile_not p s
  rw [h] at this
  simpa using this

theorem trim_white_decomp (A s R : List Char) (hs : NUL ∉ s) :
    trim_white (A ++ s ++ NUL :: R) (some A.length) =
      (some (A.length + (s.takeWhile isspace).length),
       A ++ s.takeWhile isspace ++ trimmed isspace s
         ++ List.replicate ((s.dropWhile isspace).length - (trimmed isspace s).length) NUL
         ++ NUL :: R) := by
  have hd : (A ++ s ++ NUL :: R).drop A.length = s ++ NUL :: R := by
    rw [List.append_assoc, List.drop_left]
  have hsplit : s.takeWhile isspace ++ s.dropWhile isspace = s :=
    List.takeWhile_append_dropWhile isspace s
  have hq : skipLeading ((A ++ s ++ NUL :: R).drop A.length) A.length
      = (A ++ s.takeWhile isspace).length := by
    rw [hd, skipLeading_eq, takeWhile_append_stop _ _ _ _ isspace_NUL]; simp
  have hmem : A ++ s ++ NUL :: R
      = (A ++ s.takeWhile isspace) ++ (s.dropWhile isspace ++ NUL :: R) := by
    have h1 : s ++ NUL :: R
        = s.takeWhile isspace ++ (s.dropWhile isspace ++ NUL :: R) := by
      rw [← List.append_assoc, hsplit]
    rw [List.append_assoc A s, h1, List.append_assoc]
  simp only [trim_white, hq]
  cases ht : s.dropWhile isspace with
  | nil =>
    have hderef : deref (A ++ s ++ NUL :: R) (A ++ s.takeWhile isspace).length = NUL := by
      rw [hmem, deref_append, ht]; rfl
    have hs' : s.takeWhile isspace = s :=
      List.takeWhile_eq_self_iff.mpr (List.dropWhile_eq_nil_iff.mp ht)
    rw [hderef, if_pos rfl]
    simp [trimmed, ht, List.rdropWhile, hs']
  | cons c u =>
    have hc : isspace c = false := dropWhile_head_not isspace s c u ht
    have hcu : NUL ∉ c :: u := by
      intro hmem'
      apply hs
      rw [← hsplit, ht]
      exact List.mem_append_right _ hmem'
    have hcN : c ≠ NUL := fun h => hcu (h ▸ List.mem_cons_self _ _)
    have hderef : deref (A ++ s ++ NUL :: R) (A ++ s.takeWhile isspace).length = c := by
      rw [hmem, deref_append, ht]; rfl
    have hlen : strlen (A ++ s ++ NUL :: R) (A ++ s.takeWhile isspace).length = u.length + 1 := by
      have : A ++ s ++ NUL :: R = (A ++ s.takeWhile isspace) ++ (c :: u) ++ NUL :: R := by
        rw [hmem, ht]; simp
      rw [strlen, this, cstr_append _ _ _ hcu]; simp
    have hmem2 : A ++ s ++ NUL :: R
        = (A ++ s.takeWhile isspace ++ [c]) ++ u ++ (NUL :: R) := by
      rw [hmem, ht]; simp
    have htt := trimTrailing_eq (A ++ s.takeWhile isspace).length u
      (A ++ s.takeWhile isspace ++ [c]) (NUL :: R) (by simp [Nat.add_assoc])
    have htr : trimmed isspace s = c :: u.rdropWhile isspace := by
      rw [trimmed, ht, rdropWhile_cons_of_neg _ _ _ hc]
    rw [hderef, if_neg hcN, hlen]
    have he : (A ++ s.takeWhile isspace).length + (u.length + 1) - 1
        = (A ++ s.takeWhile isspace).length + u.length := by omega
    rw [he, hmem2, htt, htr]
    simp

theorem buffer_split (mem : List Char) (l : Nat) (h : NUL ∈ mem.drop l) :
    ∃ R, mem = mem.take l ++ cstr mem l ++ NUL :: R ∧ (mem.take l).length = l
      ∧ NUL ∉ cstr mem l := by
  have hl : l ≤ mem.length := by
    by_contra hcon
    rw [List.drop_eq_nil_of_le (by omega)] at h
    exact List.not_mem_nil _ h
  have hsplit := List.takeWhile_append_dropWhile (fun c => c != NUL) (mem.drop l)
  have hnot : NUL ∉ cstr mem l := by
    intro hmem
    have := List.mem_takeWhile_imp hmem
    simp at this
  cases hd : (mem.drop l).dropWhile (fun c => c != NUL) with
  | nil =>
    have := List.dropWhile_eq_nil_iff.mp hd NUL h
    simp at this
  | cons c R =>
    have hc := List.head?_dropWhile_not (fun c => c != NUL) (mem.drop l)
    rw [hd] at hc
    have hcN : c = NUL := by simpa using hc
    refine ⟨R, ?_, by simp [hl], hnot⟩
    rw [hd, hcN] at hsplit
    rw [List.append_assoc, cstr, hsplit, List.take_append_drop]

theorem trimmed_head (ws : Char → Bool) (s : List Char) (c : Char)
    (h : (trimmed ws s).head? = some c) : ws c = false := by
  unfold trimmed at h
  cases hd : s.dropWhile ws with
  | nil => rw [hd] at h; simp [List.rdropWhile] at h
  | cons d u =>
    have hdn := dropWhile_head_not ws s d u hd
    rw [hd, rdropWhile_cons_of_neg _ _ _ hdn] at h
    simp at h
    rw [← h]; exact hdn

theorem trimmed_last (ws : Char → Bool) (s : List Char) (c : Char)
    (h : (trimmed ws s).getLast? = some c) : ws c = false := by
  have hne : trimmed ws s ≠ [] := by
    intro hnil; rw [hnil] at h; simp at h
  have := List.rdropWhile_last_not ws (s.dropWhile ws) hne
  rw [List.getLast?_eq_getLast _ hne] at h
  have hc : (trimmed ws s).getLast hne = c := by simpa using h
  rw [← hc]
  simpa [trimmed] using this

theorem takeWhile_trimmed (ws : Char → Bool) (s : List Char) :
    (trimmed ws s).takeWhile ws = [] := by
  cases ht : trimmed ws s with
  | nil => rfl
  | cons c u =>
    have := trimmed_head ws s c (by rw [ht]; rfl)
    simp [this]

theorem dropWhile_trimmed (ws : Char → Bool) (s : List Char) :
    (trimmed ws s).dropWhile ws = trimmed ws s := by
  cases ht : trimmed ws s with
  | nil => rfl
  | cons c u =>
    have := trimmed_head ws s c (by rw [ht]; rfl)
    simp [this]

theorem trimmed_idem (ws : Char → Bool) (s : List Char) :
    trimmed ws (trimmed ws s) = trimmed ws s := by
  conv_lhs => rw [trimmed, dropWhile_trimmed]
  rw [trimmed, List.rdropWhile_idempotent]

theorem trimmed_sub (ws : Char → Bool) (s : List Char) (x : Char) (h : x ∈ trimmed ws s) :
    x ∈ s := by
  have h1 : x ∈ s.dropWhile ws := (List.rdropWhile_prefix ws _).subset h
  exact (List.dropWhile_suffix ws).subset h1

theorem replicate_append_cons (k : Nat) (x : Char) (R : List Char) :
    List.replicate k x ++ x :: R = x :: (List.replicate k x ++ R) := by
  induction k with
  | zero => rfl
  | succ n ih => simp [List.replicate_succ, ih]

theorem trim_white_result (A s R : List Char) (hs : NUL ∉ s) :
    ∃ k, trim_white (A ++ s ++ NUL :: R) (some A.length) =
      (some (A ++ s.takeWhile isspace).length,
       (A ++ s.takeWhile isspace) ++ trimmed isspace s ++ NUL :: (List.replicate k NUL ++ R)) := by
  refine ⟨(s.dropWhile isspace).length - (trimmed isspace s).length, ?_⟩
  rw [trim_white_decomp A s R hs, List.append_assoc _ (List.replicate _ _), replicate_append_cons]
  simp

/-! ## Properties of `trim_white` -/

/-- C2: on a terminated buffer, `trim_white` returns a pointer to the first
non-whitespace character of the line (the line's start plus the length of its
longest whitespace-only run at the front), and the string it designates in the
buffer after the call is the line with its longest whitespace-only run at the
front and at the back removed: it is a run of characters of the original
buffer, unchanged, starting at the returned pointer, its first and its last
character (if any) are not whitespace. -/
theorem trim_white_spec (mem : List Char) (l : Nat) (h : NUL ∈ mem.drop l) :
    ∃ q, (trim_white mem (some l)).1 = some q
      ∧ q = l + ((cstr mem l).takeWhile isspace).length
      ∧ cstr (trim_white mem (some l)).2 q = trimmed isspace (cstr mem l)
      ∧ cstr (trim_white mem (some l)).2 q <+: mem.drop q
      ∧ (∀ c, (cstr (trim_white mem (some l)).2 q).head? = some c → isspace c = false)
      ∧ (∀ c, (cstr (trim_white mem (some l)).2 q).getLast? = some c → isspace c = false) := by
  obtain ⟨R, hmem, hlen, hnot⟩ := buffer_split mem l h
  generalize mem.take l = A at hmem hlen
  generalize hs : cstr mem l = s at hmem hnot
  subst hlen
  subst hmem
  obtain ⟨k, hk⟩ := trim_white_result A s R hnot
  have hnot2 : NUL ∉ trimmed isspace s := fun hx => hnot (trimmed_sub _ _ _ hx)
  have hc : cstr ((A ++ s.takeWhile isspace) ++ trimmed isspace s
      ++ NUL :: (List.replicate k NUL ++ R)) (A ++ s.takeWhile isspace).length
      = trimmed isspace s := cstr_append _ _ _ hnot2
  refine ⟨(A ++ s.takeWhile isspace).length, ?_, ?_, ?_, ?_, ?_, ?_⟩
  · rw [hk]
  · simp
  · rw [hk]; exact hc
  · rw [hk]
    simp only [hc]
    have hdrop : (A ++ s ++ NUL :: R).drop (A ++ s.takeWhile isspace).length
        = s.dropWhile isspace ++ NUL :: R := by
      have h1 : A ++ s ++ NUL :: R
          = (A ++ s.takeWhile isspace) ++ (s.dropWhile isspace ++ NUL :: R) := by
        have h2 : s ++ NUL :: R
            = s.takeWhile isspace ++ (s.dropWhile isspace ++ NUL :: R) := by
          rw [← List.append_assoc, List.takeWhile_append_dropWhile]
        rw [List.append_assoc A s, h2, List.append_assoc]
      rw [h1, List.drop_left]
    rw [hdrop]
    exact (List.rdropWhile_prefix isspace _).trans (List.prefix_append _ _)
  · intro c hh
    rw [hk] at hh
    simp only [hc] at hh
    exact trimmed_head _ _ _ hh
  · intro c hh
    rw [hk] at hh
    simp only [hc] at hh
    exact trimmed_last _ _ _ hh

/-- A concrete instance of `trim_white_spec`: the buffer holding `"  ab c \t\n"`. -/
theorem trim_white_spec_witness :
    NUL ∈ ("  ab c \t\n".toList ++ [NUL]).drop 0 ∧
    ∃ q, (trim_white ("  ab c \t\n".toList ++ [NUL]) (some 0)).1 = some q
      ∧ q = 0 + ((cstr ("  ab c \t\n".toList ++ [NUL]) 0).takeWhile isspace).length
      ∧ cstr (trim_white ("  ab c \t\n".toList ++ [NUL]) (some 0)).2 q
          = trimmed isspace (cstr ("  ab c \t\n".toList ++ [NUL]) 0)
      ∧ cstr (trim_white ("  ab c \t\n".toList ++ [NUL]) (some 0)).2 q
          <+: ("  ab c \t\n".toList ++ [NUL]).drop q
      ∧ (∀ c, (cstr (trim_white ("  ab c \t\n".toList ++ [NUL]) (some 0)).2 q).head? = some c →
          isspace c = false)
      ∧ (∀ c, (cstr (trim_white ("  ab c \t\n".toList ++ [NUL]) (some 0)).2 q).getLast? = some c →
          isspace c = false) :=
  ⟨by decide, trim_white_spec _ 0 (by decide)⟩

/-- C8: `trim_white` is idempotent on a terminated buffer: called again on its
own result (the returned pointer, in the buffer as the first call left it), it
returns the same pointer and leaves the buffer as it found it, so the string
designated is the same. -/
theorem trim_white_idempotent (mem : List Char) (l : Nat) (h : NUL ∈ mem.drop l) :
    trim_white (trim_white mem (some l)).2 (trim_white mem (some l)).1
      = trim_white mem (some l) := by
  obtain ⟨R, hmem, hlen, hnot⟩ := buffer_split mem l h
  generalize mem.take l = A at hmem hlen
  generalize cstr mem l = s at hmem hnot
  subst hlen
  subst hmem
  obtain ⟨k, hk⟩ := trim_white_result A s R hnot
  have hnot2 : NUL ∉ trimmed isspace s := fun hx => hnot (trimmed_sub _ _ _ hx)
  rw [hk]
  rw [trim_white_decomp (A ++ s.takeWhile isspace) (trimmed isspace s) _ hnot2]
  simp [takeWhile_trimmed, dropWhile_trimmed, trimmed_idem]

/-- A concrete instance of `trim_white_idempotent`: the buffer holding `" \t x  y \n"`. -/
theorem trim_white_idempotent_witness :
    NUL ∈ (" \t x  y \n".toList ++ [NUL]).drop 0 ∧
    trim_white (trim_white (" \t x  y \n".toList ++ [NUL]) (some 0)).2
        (trim_white (" \t x  y \n".toList ++ [NUL]) (some 0)).1
      = trim_white (" \t x  y \n".toList ++ [NUL]) (some 0) :=
  ⟨by decide, trim_white_idempotent _ 0 (by decide)⟩

/-! ## Lemmas on tokens and on the loop of `cmd_parse` -/

theorem strtok_blank (r : CStr) :
    strtok [' '] r =
      if r.dropWhile isBlank = [] then (none, [])
      else (some ((r.dropWhile isBlank).takeWhile (fun c => !isBlank c)),
            ((r.dropWhile isBlank).dropWhile (fun c => !isBlank c)).drop 1) := by
  have h1 : (fun c => [' '].contains c) = isBlank := by
    funext c; by_cases h : c = ' ' <;> simp [isBlank, h]
  have h2 : (fun c => !([' '].contains c)) = (fun c => !isBlank c) := by
    funext c; by_cases h : c = ' ' <;> simp [isBlank, h]
  simp only [strtok, h1, h2]

theorem tokensOf_nil (ws : Char → Bool) : tokensOf ws [] = [] := by
  simp [tokensOf]

theorem tokensOf_cons_sep (ws : Char → Bool) (c : Char) (r : CStr) (hc : ws c = true) :
    tokensOf ws (c :: r) = tokensOf ws r := by
  simp [tokensOf, hc]

theorem tokensOf_dropWhile (ws : Char → Bool) (r : CStr) :
    tokensOf ws (r.dropWhile ws) = tokensOf ws r := by
  induction r with
  | nil => rfl
  | cons c r ih =>
    by_cases hc : ws c = true
    · rw [List.dropWhile_cons_of_pos hc, ih, tokensOf_cons_sep _ _ _ hc]
    · rw [List.dropWhile_cons_of_neg hc]

theorem tokensOf_single (ws : Char → Bool) (tok : CStr) (hne : tok ≠ [])
    (h : ∀ x ∈ tok, ¬ws x = true) : tokensOf ws tok = [tok] := by
  rw [tokensOf, List.splitOnP_eq_single ws tok h]
  cases tok with
  | nil => exact absurd rfl hne
  | cons a t => simp

theorem tokensOf_first (ws : Char → Bool) (tok : CStr) (c : Char) (r : CStr) (hne : tok ≠ [])
    (h : ∀ x ∈ tok, ¬ws x = true) (hc : ws c = true) :
    tokensOf ws (tok ++ c :: r) = tok :: tokensOf ws r := by
  rw [tokensOf, List.splitOnP_first ws tok h c hc]
  cases tok with
  | nil => exact absurd rfl hne
  | cons a t => simp [tokensOf]

/-- The tokens of a line that starts with a non-separator: the run up to the
next separator, then the tokens of what follows that separator. -/
theorem tokensOf_step (ws : Char → Bool) (s : CStr) (hne : s ≠ [])
    (hhead : ∀ c, s.head? = some c → ws c = false) :
    s.takeWhile (fun c => !ws c) ≠ [] ∧
    tokensOf ws s = s.takeWhile (fun c => !ws c)
      :: tokensOf ws ((s.dropWhile (fun c => !ws c)).drop 1) := by
  have htokne : s.takeWhile (fun c => !ws c) ≠ [] := by
    cases s with
    | nil => exact absurd rfl hne
    | cons a t =>
      have := hhead a rfl
      simp [this]
  have hno : ∀ x ∈ s.takeWhile (fun c => !ws c), ¬ws x = true := by
    intro x hx
    have := List.mem_takeWhile_imp hx
    simpa using this
  refine ⟨htokne, ?_⟩
  have hsplit := List.takeWhile_append_dropWhile (fun c => !ws c) s
  cases hd : s.dropWhile (fun c => !ws c) with
  | nil =>
    rw [hd, List.append_nil] at hsplit
    rw [hsplit] at htokne hno ⊢
    simp only [List.drop_nil]
    rw [tokensOf_nil, tokensOf_single ws s htokne hno]
  | cons c r =>
    have hc : ws c = true := by
      have := List.head?_dropWhile_not (fun c => !ws c) s
      rw [hd] at this
      simpa using this
    rw [hd] at hsplit
    conv_lhs => rw [← hsplit]
    rw [tokensOf_first ws _ c r htokne hno hc]
    simp

theorem parseLoop_eq (alloc : Nat → Bool) (hal : ∀ k, alloc k = true) (n : Nat) :
    ∀ (r : CStr) (count : Nat),
      parseLoop alloc n (strtok [' '] r).1 (strtok [' '] r).2 count
        = ((tokensOf isBlank r).take n).map some := by
  induction n with
  | zero => intro r count; simp [parseLoop]
  | succ n ih =>
    intro r count
    rw [strtok_blank]
    by_cases hs : r.dropWhile isBlank = []
    · rw [if_pos hs, ← tokensOf_dropWhile, hs, tokensOf_nil]
      simp [parseLoop]
    · rw [if_neg hs]
      have hhead : ∀ c, (r.dropWhile isBlank).head? = some c → isBlank c = false := by
        intro c hc
        have := List.head?_dropWhile_not isBlank r
        rw [hc] at this
        simpa using this
      obtain ⟨_, hstep⟩ := tokensOf_step isBlank _ hs hhead
      rw [← tokensOf_dropWhile, hstep]
      simp only [parseLoop, strdup, hal, if_true, List.take_succ_cons, List.map_cons]
      rw [ih]

theorem argvOf_map_some (l : List CStr) : argvOf (l.map some) = l := by
  induction l with
  | nil => rfl
  | cons a t ih => simp [argvOf, ih]

theorem argBound_eq (sc : Int) :
    (if sc ≤ 0 then POSIX_ARG_MAX else sc) = argBound sc := by
  unfold argBound
  by_cases h : sc ≤ 0
  · rw [if_pos h, if_neg (by omega)]
  · rw [if_neg h, if_pos (by omega)]

theorem argBound_pos (sc : Int) : 0 < argBound sc := by
  unfold argBound POSIX_ARG_MAX
  by_cases h : 0 < sc
  · rw [if_pos h]; exact h
  · rw [if_neg h]; decide

theorem cmd_parse_eq (sc : Int) (alloc : Nat → Bool) (hal : ∀ k, alloc k = true) (line : CStr) :
    cmd_parse sc alloc (some line)
      = some (((tokensOf isBlank line).take (argBound sc - 1).toNat).map some) := by
  simp only [cmd_parse, hal, Bool.not_true, argBound_eq]
  rw [parseLoop_eq alloc hal]
  simp

/-! ## Lemmas on joining and collapsing -/

theorem joinSpaces_nil : joinSpaces [] = [] := rfl

theorem joinSpaces_single (a : CStr) : joinSpaces [a] = a := by
  simp [joinSpaces, List.intercalate]

theorem joinSpaces_cons_cons (a b : CStr) (T : List CStr) :
    joinSpaces (a :: b :: T) = a ++ ' ' :: joinSpaces (b :: T) := by
  simp [joinSpaces, List.intercalate]

theorem squeeze_append_run (ws : Char → Bool) (tok Z : CStr) (h : ∀ x ∈ tok, ¬ws x = true) :
    squeeze ws (tok ++ Z) = tok ++ squeeze ws Z := by
  induction tok with
  | nil => rfl
  | cons c t ih =>
    have hc : ws c = false := by simpa using h c (List.mem_cons_self _ _)
    have ht := ih (fun x hx => h x (List.mem_cons_of_mem _ hx))
    simp [squeeze, hc, ht]

theorem squeeze_run (ws : Char → Bool) (tok : CStr) (h : ∀ x ∈ tok, ¬ws x = true) :
    squeeze ws tok = tok := by
  have := squeeze_append_run ws tok [] h
  simpa [squeeze] using this

theorem squeeze_blanks (ws : Char → Bool) (c : Char) (bl : CStr) (d : Char) (Z : CStr)
    (hc : ws c = true) (hbl : ∀ x ∈ bl, ws x = true) (hd : ws d = false) :
    squeeze ws (c :: bl ++ d :: Z) = ' ' :: squeeze ws (d :: Z) := by
  induction bl generalizing c with
  | nil => simp [squeeze, hc, hd]
  | cons b t ih =>
    have hb : ws b = true := hbl b (List.mem_cons_self _ _)
    have := ih b hb (fun x hx => hbl x (List.mem_cons_of_mem _ hx))
    rw [← this]
    simp [squeeze, hc, hb]

theorem rdropWhile_append_all (ws : Char → Bool) (X Y : CStr) (h : ∀ y ∈ Y, ws y = true) :
    (X ++ Y).rdropWhile ws = X.rdropWhile ws := by
  induction Y using List.reverseRecOn with
  | nil => simp
  | append_singleton Y y ih =>
    rw [← List.append_assoc, List.rdropWhile_concat_pos _ _ _ (h y (by simp))]
    exact ih (fun z hz => h z (by simp [hz]))

theorem rdropWhile_append_keep (ws : Char → Bool) (X Y : CStr) (h : Y.rdropWhile ws ≠ []) :
    (X ++ Y).rdropWhile ws = X ++ Y.rdropWhile ws := by
  induction Y using List.reverseRecOn with
  | nil => simp [List.rdropWhile] at h
  | append_singleton Y y ih =>
    by_cases hy : ws y = true
    · rw [List.rdropWhile_concat_pos _ _ _ hy] at h ⊢
      rw [← List.append_assoc, List.rdropWhile_concat_pos _ _ _ hy]
      exact ih h
    · rw [← List.append_assoc, List.rdropWhile_concat_neg _ _ _ hy,
        List.rdropWhile_concat_neg _ _ _ hy, List.append_assoc]

theorem rdropWhile_run (ws : Char → Bool) (tok : CStr) (h : ∀ x ∈ tok, ¬ws x = true) :
    tok.rdropWhile ws = tok := by
  rw [List.rdropWhile_eq_self_iff]
  intro hl
  exact h _ (List.getLast_mem hl)

/-- Joining the tokens of a line with single spaces gives the collapsed form of
the trimmed line, for one and the same separator set. -/
theorem joinSpaces_tokensOf (ws : Char → Bool) :
    ∀ (n : Nat) (s : CStr), s.length ≤ n →
      joinSpaces (tokensOf ws s) = collapsed ws s := by
  intro n
  induction n with
  | zero =>
    intro s hs
    have : s = [] := List.length_eq_zero.mp (Nat.le_zero.mp hs)
    subst this
    simp [tokensOf_nil, joinSpaces_nil, collapsed, trimmed, List.rdropWhile, squeeze]
  | succ n ih =>
    intro s hs
    rw [← tokensOf_dropWhile, collapsed, trimmed]
    have hlen1 : (s.dropWhile ws).length ≤ s.length := (List.dropWhile_suffix ws).length_le
    generalize hs1 : s.dropWhile ws = s1 at hlen1
    by_cases hnil : s1 = []
    · subst hnil
      simp [tokensOf_nil, joinSpaces_nil, List.rdropWhile, squeeze]
    · have hhead : ∀ c, s1.head? = some c → ws c = false := by
        intro c hc
        have := List.head?_dropWhile_not ws s
        rw [hs1, hc] at this
        simpa using this
      obtain ⟨htokne, hstep⟩ := tokensOf_step ws s1 hnil hhead
      have hno : ∀ x ∈ s1.takeWhile (fun c => !ws c), ¬ws x = true := by
        intro x hx
        have := List.mem_takeWhile_imp hx
        simpa using this
      have hsplit := List.takeWhile_append_dropWhile (fun c => !ws c) s1
      generalize htok : s1.takeWhile (fun c => !ws c) = tok at htokne hstep hno hsplit
      rw [hstep]
      have htoklen : 0 < tok.length := List.length_pos.mpr htokne
      cases hd : s1.dropWhile (fun c => !ws c) with
      | nil =>
        rw [hd, List.append_nil] at hsplit
        subst hsplit
        simp only [List.drop_nil, tokensOf_nil, joinSpaces_single]
        rw [rdropWhile_run ws _ hno, squeeze_run ws _ hno]
      | cons c r =>
        have hc : ws c = true := by
          have := List.head?_dropWhile_not (fun c => !ws c) s1
          rw [hd] at this
          simpa using this
        rw [hd] at hsplit
        simp only [List.drop_succ_cons, List.drop_zero]
        have hrlen : r.length ≤ n := by
          have : s1.length = tok.length + (r.length + 1) := by
            rw [← hsplit]; simp
          omega
        have ihr := ih r hrlen
        rw [collapsed, trimmed] at ihr
        have hrsplit := List.takeWhile_append_dropWhile ws r
        have hbl : ∀ x ∈ r.takeWhile ws, ws x = true := fun x hx => List.mem_takeWhile_imp hx
        cases hr : r.dropWhile ws with
        | nil =>
          have hall : ∀ y ∈ c :: r, ws y = true := by
            intro y hy
            rcases List.mem_cons.mp hy with h | h
            · rw [h]; exact hc
            · exact List.dropWhile_eq_nil_iff.mp hr y h
          have ht : tokensOf ws r = [] := by
            rw [← tokensOf_dropWhile, hr, tokensOf_nil]
          rw [ht, joinSpaces_single, ← hsplit, rdropWhile_append_all ws _ _ hall,
            rdropWhile_run ws _ hno, squeeze_run ws _ hno]
        | cons d r2 =>
          have hdn : ws d = false := dropWhile_head_not ws r d r2 hr
          have hZ : (d :: r2).rdropWhile ws = d :: r2.rdropWhile ws :=
            rdropWhile_cons_of_neg ws d r2 hdn
          have hT : tokensOf ws r ≠ [] := by
            rw [← tokensOf_dropWhile, hr]
            have := (tokensOf_step ws (d :: r2) (by simp)
              (by intro x hx; simp at hx; rw [← hx]; exact hdn)).2
            rw [this]; simp
          obtain ⟨t1, T, hT1⟩ := List.exists_cons_of_ne_nil hT
          rw [hT1, joinSpaces_cons_cons, ← hT1, ihr, hr, hZ]
          have hs1eq : s1 = (tok ++ c :: r.takeWhile ws) ++ (d :: r2) := by
            rw [← hsplit, List.append_assoc, List.cons_append, ← hr, hrsplit]
          rw [hs1eq, rdropWhile_append_keep ws _ _ (by rw [hZ]; simp), hZ, List.append_assoc,
            squeeze_append_run ws _ _ hno]
          have := squeeze_blanks ws c (r.takeWhile ws) d (r2.rdropWhile ws) hc hbl hdn
          rw [List.cons_append] at this ⊢
          rw [this]

/-! ## Properties of `cmd_parse` -/

/-- C1, as stated, fails: on the line `"a\tb"` (one tab between two letters),
with every allocation succeeding and the bound 4096, `cmd_parse` returns the
single element `"a\tb"`, so joining gives `"a\tb"`, whereas the
whitespace-collapsed form of the trimmed line is `"a b"`. -/
theorem cmd_parse_join_whitespace_counterexample :
    ∃ v, cmd_parse 4096 (fun _ => true) (some "a\tb".toList) = some v
      ∧ ((tokensOf isspace "a\tb".toList).length : Int) < argBound 4096 - 1
      ∧ joinSpaces (argvOf v) = "a\tb".toList
      ∧ collapsed isspace "a\tb".toList = "a b".toList
      ∧ joinSpaces (argvOf v) ≠ collapsed isspace "a\tb".toList :=
  ⟨[some "a\tb".toList], by decide, by decide, by decide, by decide, by decide⟩

/-- C1, amended: when every allocation succeeds and the line has fewer tokens
than the argument bound minus one, `cmd_parse` returns a vector whose elements,
joined with single spaces, are the space-collapsed form of the line: the line
with leading and trailing space characters (0x20) removed and every interior
run of space characters replaced by one space; no other character is removed
or replaced. -/
theorem cmd_parse_join_blank (sc : Int) (alloc : Nat → Bool) (hal : ∀ k, alloc k = true)
    (line : CStr) (hn : ((tokensOf isBlank line).length : Int) < argBound sc - 1) :
    ∃ v, cmd_parse sc alloc (some line) = some v
      ∧ joinSpaces (argvOf v) = collapsed isBlank line := by
  refine ⟨_, cmd_parse_eq sc alloc hal line, ?_⟩
  rw [argvOf_map_some, List.take_of_length_le (by omega)]
  exact joinSpaces_tokensOf isBlank _ line (Nat.le_refl _)

/-- A concrete instance of `cmd_parse_join_blank`: the line `"  ls   -l\t/tmp "`. -/
theorem cmd_parse_join_blank_witness :
    (∀ k, (fun _ : Nat => true) k = true)
    ∧ ((tokensOf isBlank "  ls   -l\t/tmp ".toList).length : Int) < argBound 2097152 - 1
    ∧ ∃ v, cmd_parse 2097152 (fun _ => true) (some "  ls   -l\t/tmp ".toList) = some v
      ∧ joinSpaces (argvOf v) = collapsed isBlank "  ls   -l\t/tmp ".toList :=
  ⟨fun _ => rfl, by decide,
    cmd_parse_join_blank 2097152 (fun _ => true) (fun _ => rfl) _ (by decide)⟩

/-- C6, the code at a failing input: on the line `"a b c"`, when the vector and
the copy of the line are allocated and only the duplication of the second token
(allocation request 3) fails, `cmd_parse` returns a present vector whose slots
are `"a"`, `NULL`, `"c"`; what a consumer sees is the vector `["a"]`, cut short
at the token whose duplication failed, while the line has three tokens. -/
theorem cmd_parse_token_alloc_failure :
    cmd_parse 4096 (fun k => k != 3) (some "a b c".toList)
        = some [some "a".toList, none, some "c".toList]
      ∧ argvOf [some "a".toList, none, some "c".toList] = ["a".toList]
      ∧ tokensOf isBlank "a b c".toList = ["a".toList, "b".toList, "c".toList] := by
  decide

/-- When every allocation succeeds, `cmd_parse` returns a present vector that
holds exactly the first `min(n, B-1)` tokens of the line in order, `n` being the
number of tokens and `B` the argument bound; its length is less than `B`. -/
theorem cmd_parse_take (sc : Int) (alloc : Nat → Bool) (hal : ∀ k, alloc k = true)
    (line : CStr) :
    ∃ v, cmd_parse sc alloc (some line) = some v
      ∧ v = ((tokensOf isBlank line).take (argBound sc - 1).toNat).map some
      ∧ argvOf v = (tokensOf isBlank line).take (argBound sc - 1).toNat
      ∧ (v.length : Int) = min ((tokensOf isBlank line).length : Int) (argBound sc - 1)
      ∧ (v.length : Int) < argBound sc := by
  have hpos := argBound_pos sc
  refine ⟨_, cmd_parse_eq sc alloc hal line, rfl, argvOf_map_some _, ?_, ?_⟩
  · rw [List.length_map, List.length_take]
    omega
  · rw [List.length_map, List.length_take]
    omega

/-- A concrete instance of `cmd_parse_take`: bound 3 and the line `"a b c d"`. -/
theorem cmd_parse_take_example :
    (∀ k, (fun _ : Nat => true) k = true)
    ∧ ∃ v, cmd_parse 3 (fun _ => true) (some "a b c d".toList) = some v
      ∧ v = ((tokensOf isBlank "a b c d".toList).take (argBound 3 - 1).toNat).map some
      ∧ argvOf v = (tokensOf isBlank "a b c d".toList).take (argBound 3 - 1).toNat
      ∧ (v.length : Int) = min ((tokensOf isBlank "a b c d".toList).length : Int) (argBound 3 - 1)
      ∧ (v.length : Int) < argBound 3 :=
  ⟨fun _ => rfl, cmd_parse_take 3 (fun _ => true) (fun _ => rfl) _⟩

/-- While the product `sizeof(char *) * B` fits `size_t`, the block requested
for `args` has exactly `B` slots. -/
theorem args_slots_eq (sc : Int) (h : argBound sc < 2305843009213693952) :
    args_slots sc = (argBound sc).toNat := by
  have hpos := argBound_pos sc
  unfold args_slots args_malloc_size SIZEOF_PTR
  simp only [argBound_eq]
  omega

/-- C7, the code at two failing inputs. (1) When `sysconf(_SC_ARG_MAX)` returns
`2^61`, the bound `B` is `2^61`, but the byte count passed to `malloc`,
`8 * 2^61` in `size_t`, is 0, so the block requested has no slot; on the line
`"a b c d"`, with every allocation succeeding, `cmd_parse` stores the four tokens
in slots 0 to 3 and the sentinel in slot 4: the sentinel index is not below the
number of slots of the backing storage. (2) With the bound 4096, on the line
`"a b c"`, when only the duplication of the second token fails, the vector
returned has slots `"a"`, `NULL`, `"c"`: its sentinel, as a consumer finds it, is
at index 1 and it holds one token, not the first `min(n, B-1) = 3`. -/
theorem cmd_parse_storage_overflow :
    (argBound 2305843009213693952 = 2305843009213693952
      ∧ args_malloc_size 2305843009213693952 = 0
      ∧ args_slots 2305843009213693952 = 0
      ∧ cmd_parse 2305843009213693952 (fun _ => true) (some "a b c d".toList)
          = some [some "a".toList, some "b".toList, some "c".toList, some "d".toList]
      ∧ ¬ ([some "a".toList, some "b".toList, some "c".toList, some "d".toList].length
            < args_slots 2305843009213693952))
    ∧ (cmd_parse 4096 (fun k => k != 3) (some "a b c".toList)
          = some [some "a".toList, none, some "c".toList]
      ∧ (argvOf [some "a".toList, none, some "c".toList]).length = 1
      ∧ min ((tokensOf isBlank "a b c".toList).length : Int) (argBound 4096 - 1) = 3) := by
  decide

/-! ## Properties of `get_prompt` -/

/-- C5, as stated, fails: when the variable is set to the empty string,
`get_prompt` returns a copy of that empty value, not the default `shell>`. -/
theorem get_prompt_empty_counterexample :
    get_prompt (exampleSys (envWith "MY_PROMPT".toList []) []) true "MY_PROMPT".toList = some []
      ∧ get_prompt (exampleSys (envWith "MY_PROMPT".toList []) []) true "MY_PROMPT".toList
          ≠ some "shell>".toList := by
  decide

/-- C5, amended: with the allocation succeeding, `get_prompt` returns a copy of
the value of the variable whenever the variable is set, the empty value
included, and a copy of the default literal `shell>` exactly in the remaining
case, the variable being unset. -/
theorem get_prompt_spec (sys : Sys) (env : CStr) :
    (∀ v, sys.getenv env = some v → get_prompt sys true env = some v)
      ∧ (sys.getenv env = none → get_prompt sys true env = some "shell>".toList) := by
  constructor
  · intro v hv
    simp [get_prompt, hv]
  · intro hv
    simp [get_prompt, hv]

/-! ## Properties of `change_dir` -/

theorem chdirCalls_append (a b : List Event) :
    chdirCalls (a ++ b) = chdirCalls a ++ chdirCalls b := by
  induction a with
  | nil => rfl
  | cons e t ih => cases e <;> simp [chdirCalls, ih]

/-- C4, as stated, fails: with no second element and `HOME` set to the empty
string, the path `change_dir` passes to `chdir` is the empty path, not the home
directory `/home/u` of the password database. -/
theorem change_dir_empty_home_counterexample :
    chdirCalls (change_dir (exampleSys (envWith "HOME".toList []) ["/home/u".toList])
        ["cd".toList] exampleProc).2.trace = [[]]
      ∧ (exampleSys (envWith "HOME".toList []) ["/home/u".toList]).pw_dir
          = some "/home/u".toList
      ∧ (change_dir (exampleSys (envWith "HOME".toList []) ["/home/u".toList])
        ["cd".toList] exampleProc).1 = -1 := by
  decide

/-- C4, amended: the one path `change_dir` passes to `chdir` is the second
element of the vector if it is present; otherwise the value of `HOME` if `HOME`
is set, the empty string included; otherwise (`HOME` unset) the home directory
of the password-database entry of the user, if there is one; with neither, no
`chdir` call is made. -/
theorem change_dir_target (sys : Sys) (dir : List CStr) (p : Proc) :
    chdirCalls (change_dir sys dir p).2.trace = chdirCalls p.trace ++
      (match dir[1]? with
       | some d => [d]
       | none =>
         match sys.getenv "HOME".toList with
         | some h => [h]
         | none =>
           match sys.pw_dir with
           | some d => [d]
           | none => []) := by
  unfold change_dir
  cases h1 : dir[1]? with
  | some d =>
    cases hc : sys.chdir p.cwd d <;>
      simp [hc, Proc.emit, chdirCalls_append, chdirCalls]
  | none =>
    cases hh : sys.getenv "HOME".toList with
    | some h =>
      cases hc : sys.chdir p.cwd h <;>
        simp [hc, Proc.emit, chdirCalls_append, chdirCalls]
    | none =>
      cases hp : sys.pw_dir with
      | some d =>
        cases hc : sys.chdir p.cwd d <;>
          simp [hc, Proc.emit, chdirCalls_append, chdirCalls]
      | none => simp [Proc.emit, chdirCalls_append, chdirCalls]

/-- The examples of C4: with no second element and `HOME=/tmp` the path passed
to `chdir` is `/tmp` and the call returns 0 in `/tmp`; with no second element
and `HOME` unset it is the home directory of the password database. -/
theorem change_dir_home_examples :
    chdirCalls (change_dir (exampleSys (envWith "HOME".toList "/tmp".toList) ["/tmp".toList])
        ["cd".toList] exampleProc).2.trace = ["/tmp".toList]
      ∧ change_dir (exampleSys (envWith "HOME".toList "/tmp".toList) ["/tmp".toList])
        ["cd".toList] exampleProc
          = (0, { cwd := "/tmp".toList,
                  trace := [.out "DEBUG: HOME directory detected as: /tmp\n".toList,
                            .chdir "/tmp".toList] })
      ∧ chdirCalls (change_dir (exampleSys (fun _ => none) ["/home/u".toList])
        ["cd".toList] exampleProc).2.trace = ["/home/u".toList] := by
  decide

/-- C9: with the target `change_dir` resolves (second element, else `HOME`,
else the home directory of the password database): if there is none,
`change_dir` returns -1, calls `chdir` on nothing and leaves the working
directory as it was; if there is one, `change_dir` makes exactly one `chdir`
call, on that target, returns 0 with the working directory the call set when
the call succeeds, and returns -1 with the working directory as it was when
the call fails. Hence a non-zero result always leaves the working directory
unchanged, and the result is 0 exactly when the directory change to the
resolved target succeeded. -/
theorem change_dir_frame (sys : Sys) (dir : List CStr) (p : Proc) :
    (resolvedTarget sys dir = none →
        (change_dir sys dir p).1 = -1 ∧ (change_dir sys dir p).2.cwd = p.cwd
          ∧ chdirCalls (change_dir sys dir p).2.trace = chdirCalls p.trace)
      ∧ (∀ t, resolvedTarget sys dir = some t →
          chdirCalls (change_dir sys dir p).2.trace = chdirCalls p.trace ++ [t]
            ∧ (∀ d, sys.chdir p.cwd t = some d →
                (change_dir sys dir p).1 = 0 ∧ (change_dir sys dir p).2.cwd = d)
            ∧ (sys.chdir p.cwd t = none →
                (change_dir sys dir p).1 = -1 ∧ (change_dir sys dir p).2.cwd = p.cwd))
      ∧ ((change_dir sys dir p).1 ≠ 0 → (change_dir sys dir p).2.cwd = p.cwd)
      ∧ ((change_dir sys dir p).1 = 0 ↔
          ∃ t d, resolvedTarget sys dir = some t ∧ sys.chdir p.cwd t = some d) := by
  unfold change_dir resolvedTarget
  cases h1 : dir[1]? with
  | some t =>
    cases hc : sys.chdir p.cwd t <;>
      simp [hc, Proc.emit, chdirCalls_append, chdirCalls]
  | none =>
    cases hh : sys.getenv "HOME".toList with
    | some t =>
      cases hc : sys.chdir p.cwd t <;>
        simp [hc, Proc.emit, chdirCalls_append, chdirCalls]
    | none =>
      cases hp : sys.pw_dir with
      | some t =>
        cases hc : sys.chdir p.cwd t <;>
          simp [hc, Proc.emit, chdirCalls_append, chdirCalls]
      | none => simp [Proc.emit, chdirCalls_append, chdirCalls]

/-- The examples of C9, success: `cd /tmp` with `/tmp` enterable returns 0 in
`/tmp`; `cd` alone with `HOME` unset goes to the home directory of the password
database; `cd` alone with neither `HOME` nor an entry returns -1 in place. -/
theorem change_dir_success_examples :
    change_dir (exampleSys (fun _ => none) ["/tmp".toList])
        ["cd".toList, "/tmp".toList] exampleProc
      = (0, { cwd := "/tmp".toList, trace := [.chdir "/tmp".toList] })
    ∧ (change_dir (exampleSys (fun _ => none) ["/home/u".toList])
        ["cd".toList] exampleProc).1 = 0
    ∧ (change_dir (exampleSys (fun _ => none) ["/home/u".toList])
        ["cd".toList] exampleProc).2.cwd = "/home/u".toList
    ∧ resolvedTarget { exampleSys (fun _ => none) [] with pw_dir := none } ["cd".toList] = none
    ∧ (change_dir { exampleSys (fun _ => none) [] with pw_dir := none }
        ["cd".toList] exampleProc).1 = -1
    ∧ (change_dir { exampleSys (fun _ => none) [] with pw_dir := none }
        ["cd".toList] exampleProc).2.cwd = "/".toList := by
  decide

/-- The example of C9: `cd /does/not/exist`, the path not being enterable,
returns -1 after one `chdir` call on that path and leaves the working directory
`/` as it was. -/
theorem change_dir_missing_example :
    change_dir (exampleSys (fun _ => none) ["/tmp".toList])
        ["cd".toList, "/does/not/exist".toList] exampleProc
      = (-1, { cwd := "/".toList,
               trace := [.chdir "/does/not/exist".toList, .perror "cd".toList] }) := by
  decide

/-! ## Properties of `do_builtin` -/

/-- C3: on an argument vector whose first element is not `exit`, `do_builtin`
returns to its caller, with the session state untouched, and the value it
returns is `true` if and only if the vector is present, has a first element,
and that element is exactly the string `cd`; this holds whatever `change_dir`
returns. -/
theorem do_builtin_returns (sys : Sys) (sh : Option Shell) (argv : Option (List CStr))
    (p : Proc) (hne : argv.bind List.head? ≠ some "exit".toList) :
    ∃ b p1, do_builtin sys sh argv p = .returned b sh p1
      ∧ (b = true ↔ argv.bind List.head? = some "cd".toList) := by
  unfold do_builtin
  cases argv with
  | none => exact ⟨false, p, rfl, by simp⟩
  | some v =>
    cases v with
    | nil => exact ⟨false, p, rfl, by simp⟩
    | cons a rest =>
      have ha : a ≠ "exit".toList := by
        intro h
        exact hne (by rw [h]; rfl)
      have hiff : (some (a :: rest)).bind List.head? = some "cd".toList ↔ a = "cd".toList := by
        rw [Option.some_bind, List.head?_cons, Option.some_inj]
      simp only [if_neg ha]
      by_cases hcd : a = "cd".toList
      · simp only [if_pos hcd]
        by_cases hr : (change_dir sys (a :: rest) p).1 ≠ 0
        · rw [if_pos hr]
          exact ⟨true, _, rfl, iff_of_true rfl (hiff.mpr hcd)⟩
        · rw [if_neg hr]
          exact ⟨true, _, rfl, iff_of_true rfl (hiff.mpr hcd)⟩
      · simp only [if_neg hcd]
        have hfalse : (false = true ↔ (some (a :: rest)).bind List.head? = some "cd".toList) :=
          iff_of_false (by simp) (fun h => hcd (hiff.mp h))
        by_cases hh : a = "history".toList
        · simp only [if_pos hh]
          cases sys.history_list with
          | none => exact ⟨false, _, rfl, hfalse⟩
          | some l => exact ⟨false, _, rfl, hfalse⟩
        · simp only [if_neg hh]
          exact ⟨false, _, rfl, hfalse⟩

/-- A concrete instance of `do_builtin_returns`: `cd /does/not/exist` on a present
session, where `change_dir` fails. -/
theorem do_builtin_returns_witness :
    (some ["cd".toList, "/does/not/exist".toList]).bind List.head? ≠ some "exit".toList
    ∧ ∃ b p1, do_builtin (exampleSys (fun _ => none) [])
          (some ⟨1, 100, 0, 0, some "shell>".toList⟩)
          (some ["cd".toList, "/does/not/exist".toList]) exampleProc
        = .returned b (some ⟨1, 100, 0, 0, some "shell>".toList⟩) p1
      ∧ (b = true ↔
          (some ["cd".toList, "/does/not/exist".toList]).bind List.head? = some "cd".toList) :=
  ⟨by decide, do_builtin_returns _ _ _ _ (by decide)⟩

/-- C10: on an argument vector whose first element is `exit`, whatever follows
it and whether the session state is present or absent, `do_builtin` does not
return: the process has exited with status 0; a present session state has its
prompt field absent at that moment, the prompt it held having been freed, and
nothing else in it or in the process has changed. -/
theorem do_builtin_exit (sys : Sys) (sh : Option Shell) (rest : List CStr) (p : Proc) :
    ∃ sh1 p1, do_builtin sys sh (some ("exit".toList :: rest)) p = .exited 0 sh1 p1
      ∧ (sh = none → sh1 = none ∧ p1 = p)
      ∧ (∀ s, sh = some s → sh1 = some { s with prompt := none }
          ∧ p1.cwd = p.cwd
          ∧ (∀ pr, s.prompt = some pr → p1.trace = p.trace ++ [.free pr])
          ∧ (s.prompt = none → p1 = p)) := by
  cases sh with
  | none => exact ⟨none, p, by simp [do_builtin, sh_destroy], by simp, by simp⟩
  | some s =>
    cases hp : s.prompt with
    | none =>
      refine ⟨some s, p, by simp [do_builtin, sh_destroy, hp], by simp, ?_⟩
      intro s1 hs1
      cases hs1
      refine ⟨?_, rfl, by simp [hp], fun _ => rfl⟩
      cases s
      simp at hp
      simp [hp]
    | some pr =>
      refine ⟨some { s with prompt := none }, p.emit (.free pr),
        by simp [do_builtin, sh_destroy, hp], by simp, ?_⟩
      intro s1 hs1
      cases hs1
      exact ⟨rfl, rfl, by simp [Proc.emit, hp], by simp [hp]⟩

/-! ## Whitespace-only lines and absent input of `trim_white` -/

/-- C11: on a terminated buffer whose line holds only whitespace characters (the
empty line included), `trim_white` returns a present pointer, positioned at the
terminator of the line, so the string it designates has length zero, and the
buffer is left as it was; and for every buffer and input, the result of
`trim_white` is absent if and only if its input is absent. -/
theorem trim_white_blank (mem : List Char) (l : Nat) (h : NUL ∈ mem.drop l)
    (hws : ∀ c ∈ cstr mem l, isspace c = true) :
    trim_white mem (some l) = (some (l + strlen mem l), mem)
      ∧ deref mem (l + strlen mem l) = NUL
      ∧ cstr mem (l + strlen mem l) = []
      ∧ (∀ (mem1 : List Char) (line : Option Nat),
          (trim_white mem1 line).1 = none ↔ line = none) := by
  obtain ⟨R, hmem, hlen, hnot⟩ := buffer_split mem l h
  have hstr : strlen mem l = (cstr mem l).length := rfl
  rw [hstr]
  generalize mem.take l = A at hmem hlen
  generalize cstr mem l = s at hmem hnot hws
  subst hlen
  have htw : s.takeWhile isspace = s := List.takeWhile_eq_self_iff.mpr hws
  have hdw : s.dropWhile isspace = [] := List.dropWhile_eq_nil_iff.mpr hws
  have hmem2 : mem = (A ++ s) ++ [] ++ NUL :: R := by rw [hmem]; simp
  have hlen2 : A.length + s.length = (A ++ s).length := by simp
  refine ⟨?_, ?_, ?_, ?_⟩
  · conv_lhs => rw [hmem]
    rw [trim_white_decomp A s R hnot, htw, hdw]
    simp [trimmed, hdw, List.rdropWhile, hmem]
  · rw [hlen2, hmem2, List.append_assoc, deref_append]
    rfl
  · rw [hlen2, hmem2]
    exact cstr_append _ _ _ (by simp)
  · intro mem1 line
    cases line with
    | none => simp [trim_white]
    | some q =>
      simp only [trim_white]
      split <;> simp

/-- A concrete instance of `trim_white_blank`: the buffer holding `" \t\n "`. -/
theorem trim_white_blank_witness :
    NUL ∈ (" \t\n ".toList ++ [NUL]).drop 0
    ∧ (∀ c ∈ cstr (" \t\n ".toList ++ [NUL]) 0, isspace c = true)
    ∧ trim_white (" \t\n ".toList ++ [NUL]) (some 0)
        = (some (0 + strlen (" \t\n ".toList ++ [NUL]) 0), " \t\n ".toList ++ [NUL])
    ∧ deref (" \t\n ".toList ++ [NUL]) (0 + strlen (" \t\n ".toList ++ [NUL]) 0) = NUL
    ∧ cstr (" \t\n ".toList ++ [NUL]) (0 + strlen (" \t\n ".toList ++ [NUL]) 0) = []
    ∧ (∀ (mem1 : List Char) (line : Option Nat),
        (trim_white mem1 line).1 = none ↔ line = none) :=
  ⟨by decide, by decide, trim_white_blank _ 0 (by decide) (by decide)⟩

/-! ## Properties of `sh_destroy` -/

/-- C12: `sh_destroy` on an absent session state returns to its caller and
changes nothing; on a present session state it does not return: the process
has exited with status 0, the prompt field is absent, the prompt it held (if
any) has been freed, and nothing else has changed. -/
theorem sh_destroy_spec (p : Proc) :
    sh_destroy none p = .returned () none p
      ∧ ∀ s : Shell, ∃ p1, sh_destroy (some s) p = .exited 0 (some { s with prompt := none }) p1
          ∧ p1.cwd = p.cwd
          ∧ (∀ pr, s.prompt = some pr → p1.trace = p.trace ++ [.free pr])
          ∧ (s.prompt = none → p1 = p) := by
  refine ⟨rfl, ?_⟩
  intro s
  cases hp : s.prompt with
  | none =>
    refine ⟨p, ?_, rfl, by simp, fun _ => rfl⟩
    cases s
    simp at hp
    simp [sh_destroy, hp]
  | some pr =>
    exact ⟨p.emit (.free pr), by simp [sh_destroy, hp], rfl, by simp [Proc.emit],
      by simp⟩

/-! ## Further lemmas on tokens -/

theorem splitOnP_no_sep (ws : Char → Bool) (l : CStr) :
    ∀ t ∈ l.splitOnP ws, ∀ x ∈ t, ws x = false := by
  induction l with
  | nil => intro t ht x hx; simp at ht; subst ht; simp at hx
  | cons a r ih =>
    intro t ht x hx
    rw [List.splitOnP_cons] at ht
    by_cases ha : ws a = true
    · rw [if_pos ha] at ht
      rcases List.mem_cons.mp ht with h | h
      · subst h; simp at hx
      · exact ih t h x hx
    · rw [if_neg ha] at ht
      cases hs : r.splitOnP ws with
      | nil => rw [hs] at ht; simp at ht
      | cons b L =>
        rw [hs] at ht ih
        simp only [List.modifyHead_cons] at ht
        rcases List.mem_cons.mp ht with h | h
        · subst h
          rcases List.mem_cons.mp hx with h2 | h2
          · rw [h2]; simpa using ha
          · exact ih b (List.mem_cons_self _ _) x h2
        · exact ih t (List.mem_cons_of_mem _ h) x hx

theorem tokensOf_mem (ws : Char → Bool) (l t : CStr) (ht : t ∈ tokensOf ws l) :
    t ≠ [] ∧ ∀ x ∈ t, ws x = false := by
  rw [tokensOf, List.mem_filter] at ht
  refine ⟨?_, splitOnP_no_sep ws l t ht.1⟩
  intro hnil
  rw [hnil] at ht
  simp at ht

theorem flatten_filter_nonempty (L : List CStr) :
    (L.filter (fun t => !t.isEmpty)).flatten = L.flatten := by
  induction L with
  | nil => rfl
  | cons t r ih =>
    cases t with
    | nil => simpa using ih
    | cons a u => simp [ih]

theorem flatten_splitOnP (ws : Char → Bool) (l : CStr) :
    (l.splitOnP ws).flatten = l.filter (fun c => !ws c) := by
  induction l with
  | nil => rfl
  | cons a r ih =>
    rw [List.splitOnP_cons]
    by_cases ha : ws a = true
    · rw [if_pos ha]
      simp [ha, ih]
    · rw [if_neg ha]
      cases hs : r.splitOnP ws with
      | nil => exact absurd hs (List.splitOnP_ne_nil ws r)
      | cons b L =>
        rw [hs] at ih
        simp only [List.modifyHead_cons, List.flatten_cons, List.cons_append] at ih ⊢
        simp [ha, ih]

theorem flatten_tokensOf (ws : Char → Bool) (l : CStr) :
    (tokensOf ws l).flatten = l.filter (fun c => !ws c) := by
  rw [tokensOf, flatten_filter_nonempty, flatten_splitOnP]

theorem parseLoop_none (alloc : Nat → Bool) (n : Nat) (rest : CStr) (count : Nat) :
    parseLoop alloc n none rest count = [] := by
  cases n <;> rfl

/-! ## Further properties of `cmd_parse` -/

/-- C14: when the vector and the copy of the line can be allocated, `cmd_parse`
on the empty string, and on every line made only of space characters, returns
a present vector with no slot before the sentinel: the element at index 0 is
the sentinel and the vector has zero logical arguments. -/
theorem cmd_parse_blank_line (sc : Int) (alloc : Nat → Bool) (h0 : alloc 0 = true)
    (h1 : alloc 1 = true) (line : CStr) (hsp : ∀ c ∈ line, c = ' ') :
    cmd_parse sc alloc (some line) = some []
      ∧ cmd_parse sc alloc (some []) = some []
      ∧ argvOf [] = [] := by
  have hempty : ∀ l : CStr, (∀ c ∈ l, c = ' ') → cmd_parse sc alloc (some l) = some [] := by
    intro l hl
    have hd : l.dropWhile isBlank = [] := by
      rw [List.dropWhile_eq_nil_iff]
      intro c hc
      rw [hl c hc]; rfl
    simp only [cmd_parse, h0, h1, Bool.not_true, strtok_blank, hd, if_true]
    rw [parseLoop_none]
    simp
  exact ⟨hempty line hsp, hempty [] (by simp), rfl⟩

/-- A concrete instance of `cmd_parse_blank_line`: the line of three spaces, with
only the two allocations the call makes succeeding. -/
theorem cmd_parse_blank_line_witness :
    (fun k : Nat => decide (k < 2)) 0 = true
    ∧ (fun k : Nat => decide (k < 2)) 1 = true
    ∧ (∀ c ∈ "   ".toList, c = ' ')
    ∧ cmd_parse 2097152 (fun k => decide (k < 2)) (some "   ".toList) = some []
    ∧ cmd_parse 2097152 (fun k => decide (k < 2)) (some []) = some []
    ∧ argvOf [] = [] :=
  ⟨rfl, rfl, by decide, cmd_parse_blank_line 2097152 _ rfl rfl _ (by decide)⟩

/-- C18: when every allocation succeeds and the line has fewer tokens than the
argument bound minus one, the vector `cmd_parse` returns is exactly the list, in
order, of the maximal runs of characters other than the space character in the
line: every element is non-empty and holds no space; the elements put end to
end are the line with its space characters deleted, so every other character,
tabs and newlines included, is kept inside a token in its place; and the
elements joined with single spaces are the line with leading and trailing
spaces removed and every run of spaces replaced by one space. -/
theorem cmd_parse_runs (sc : Int) (alloc : Nat → Bool) (hal : ∀ k, alloc k = true)
    (line : CStr) (hn : ((tokensOf isBlank line).length : Int) < argBound sc - 1) :
    ∃ v, cmd_parse sc alloc (some line) = some v
      ∧ v = (tokensOf isBlank line).map some
      ∧ (∀ t ∈ argvOf v, t ≠ [] ∧ ' ' ∉ t)
      ∧ (argvOf v).flatten = line.filter (fun c => c != ' ')
      ∧ joinSpaces (argvOf v) = collapsed isBlank line := by
  have htake : (tokensOf isBlank line).take (argBound sc - 1).toNat = tokensOf isBlank line :=
    List.take_of_length_le (by omega)
  refine ⟨(tokensOf isBlank line).map some, ?_, rfl, ?_, ?_, ?_⟩
  · rw [cmd_parse_eq sc alloc hal line, htake]
  · intro t ht
    rw [argvOf_map_some] at ht
    obtain ⟨hne, hno⟩ := tokensOf_mem isBlank line t ht
    refine ⟨hne, ?_⟩
    intro hmem
    have := hno ' ' hmem
    simp [isBlank] at this
  · rw [argvOf_map_some, flatten_tokensOf]
    congr 1
  · rw [argvOf_map_some]
    exact joinSpaces_tokensOf isBlank _ line (Nat.le_refl _)

/-- A concrete instance of `cmd_parse_runs`: the line `" ls\t-l  a\nb "`, whose tab
and newline stay inside tokens. -/
theorem cmd_parse_runs_witness :
    (∀ k, (fun _ : Nat => true) k = true)
    ∧ ((tokensOf isBlank " ls\t-l  a\nb ".toList).length : Int) < argBound (-1) - 1
    ∧ ∃ v, cmd_parse (-1) (fun _ => true) (some " ls\t-l  a\nb ".toList) = some v
      ∧ v = (tokensOf isBlank " ls\t-l  a\nb ".toList).map some
      ∧ (∀ t ∈ argvOf v, t ≠ [] ∧ ' ' ∉ t)
      ∧ (argvOf v).flatten = " ls\t-l  a\nb ".toList.filter (fun c => c != ' ')
      ∧ joinSpaces (argvOf v) = collapsed isBlank " ls\t-l  a\nb ".toList :=
  ⟨fun _ => rfl, by decide, cmd_parse_runs (-1) (fun _ => true) (fun _ => rfl) _ (by decide)⟩

/-- The tokens of the line `" ls\t-l  a\nb "` as `cmd_parse` returns them. -/
theorem cmd_parse_runs_example :
    cmd_parse (-1) (fun _ => true) (some " ls\t-l  a\nb ".toList)
      = some [some "ls\t-l".toList, some "a\nb".toList] := by
  decide

/-! ## Further properties of `get_prompt` -/

/-- C15: with the allocation succeeding, `get_prompt` returns exactly the string
`shell>` when the variable is unset, and for every non-empty value of the
variable it returns that value, character for character and of the same
length. -/
theorem get_prompt_exact (sys : Sys) (env : CStr) :
    (sys.getenv env = none → get_prompt sys true env = some "shell>".toList)
      ∧ (∀ v, v ≠ [] → sys.getenv env = some v →
          get_prompt sys true env = some v
            ∧ ∀ r, get_prompt sys true env = some r → r.length = v.length) := by
  constructor
  · intro hv
    simp [get_prompt, hv]
  · intro v _ hv
    have hr : get_prompt sys true env = some v := by simp [get_prompt, hv]
    refine ⟨hr, ?_⟩
    intro r h
    rw [hr] at h
    cases h
    rfl

/-- The examples of C15: the variable unset gives `shell>`; the value `myshell$ `
is returned with its trailing space. -/
theorem get_prompt_exact_witness :
    get_prompt (exampleSys (fun _ => none) []) true "MY_PROMPT".toList = some "shell>".toList
    ∧ get_prompt (exampleSys (envWith "MY_PROMPT".toList "myshell$ ".toList) []) true
        "MY_PROMPT".toList = some "myshell$ ".toList :=
  ⟨(get_prompt_exact (exampleSys (fun _ => none) []) "MY_PROMPT".toList).1 rfl,
   ((get_prompt_exact (exampleSys (envWith "MY_PROMPT".toList "myshell$ ".toList) [])
      "MY_PROMPT".toList).2 "myshell$ ".toList (by decide) (by decide)).1⟩

/-! ## Properties of the `history` built-in -/

theorem printHistory_length (b : Int) (hist : List CStr) (i : Nat) :
    (printHistory b hist i).length = hist.length := by
  induction hist generalizing i with
  | nil => rfl
  | cons e r ih => simp [printHistory, ih]

theorem printHistory_getElem? (b : Int) (hist : List CStr) (i k : Nat) (e : CStr)
    (h : hist[k]? = some e) :
    (printHistory b hist i)[k]?
      = some (.out (fmt_d (int_add ((i + k : Nat) : Int) b) ++ ": ".toList ++ e ++ ['\n'])) := by
  induction hist generalizing i k with
  | nil => simp at h
  | cons a r ih =>
    cases k with
    | zero =>
      simp at h
      subst h
      simp [printHistory]
    | succ k =>
      simp at h
      have := ih (i + 1) k h
      simp only [printHistory, List.getElem?_cons_succ]
      rw [this]
      have hk : i + 1 + k = i + (k + 1) := by omega
      rw [hk]

theorem int_add_exact (a b : Int) (h1 : INT_MIN ≤ a + b) (h2 : a + b ≤ INT_MAX) :
    int_add a b = a + b := by
  unfold INT_MIN at h1
  unfold INT_MAX at h2
  unfold int_add int_wrap
  omega

theorem int_add_range (a b : Int) : INT_MIN ≤ int_add a b ∧ int_add a b ≤ INT_MAX := by
  unfold INT_MIN INT_MAX int_add int_wrap
  omega

/-- C16, as stated, fails: with the base index `INT_MAX` and a log of two
entries, the second line `do_builtin` prints carries the number `-2147483648`,
the `int` sum of 1 and `INT_MAX`, whereas `1 + b` is `2147483648`. -/
theorem do_builtin_history_overflow_counterexample :
    do_builtin { exampleSys (fun _ => none) [] with
        history_list := some ["ls".toList, "pwd".toList], history_base := 2147483647 }
        (some freshShell) (some ["history".toList]) exampleProc
      = .returned false (some freshShell)
          { cwd := "/".toList,
            trace := [.out "2147483647: ls\n".toList, .out "-2147483648: pwd\n".toList] }
    ∧ fmt_d ((1 : Int) + 2147483647) = "2147483648".toList
    ∧ fmt_d (int_add 1 2147483647) = "-2147483648".toList
    ∧ fmt_d (int_add 1 2147483647) ≠ fmt_d ((1 : Int) + 2147483647) := by
  refine ⟨rfl, by decide, by decide, by decide⟩

/-- C16, amended: on an argument vector whose first element is `history`, when
a history log with entries `e_0 .. e_(n-1)` (oldest first, `n` at most
`INT_MAX`) and base index `b` is available, `do_builtin` writes exactly `n`
lines to standard output and nothing else, line `i` (from 0) being the `int`
sum of `i` and `b` in decimal, then `": "`, then the text of `e_i`, then a
newline, and returns `false`; the `int` sum is the number `i + b` whenever
`i + b` does not exceed `INT_MAX` (`b` being an `int`). When no history log is
available it writes nothing and returns `false`. -/
theorem do_builtin_history (sys : Sys) (sh : Option Shell) (rest : List CStr) (p : Proc) :
    (∀ hist, sys.history_list = some hist → (hist.length : Int) ≤ INT_MAX →
        ∃ lines, do_builtin sys sh (some ("history".toList :: rest)) p
            = .returned false sh { p with trace := p.trace ++ lines }
          ∧ lines.length = hist.length
          ∧ ∀ (i : Nat) (e : CStr), hist[i]? = some e →
              lines[i]? = some (.out (fmt_d (int_add (i : Int) sys.history_base) ++ ": ".toList
                ++ e ++ ['\n']))
              ∧ (INT_MIN ≤ sys.history_base → (i : Int) + sys.history_base ≤ INT_MAX →
                  lines[i]? = some (.out (fmt_d ((i : Int) + sys.history_base) ++ ": ".toList
                    ++ e ++ ['\n']))))
      ∧ (sys.history_list = none →
          do_builtin sys sh (some ("history".toList :: rest)) p = .returned false sh p) := by
  have h1 : "history".toList ≠ "exit".toList := by decide
  have h2 : "history".toList ≠ "cd".toList := by decide
  constructor
  · intro hist hh _
    refine ⟨printHistory sys.history_base hist 0, ?_, printHistory_length _ _ _, ?_⟩
    · simp only [do_builtin, if_neg h1, if_neg h2, if_true, hh]
    · intro i e he
      have hline := printHistory_getElem? sys.history_base hist 0 i e he
      rw [Nat.zero_add] at hline
      refine ⟨hline, ?_⟩
      intro hb hle
      have hi : (0 : Int) ≤ (i : Int) := Int.ofNat_nonneg i
      rw [hline, int_add_exact (i : Int) sys.history_base (by omega) hle]
  · intro hh
    simp only [do_builtin, if_neg h1, if_neg h2, if_true, hh]

/-- The example of C16: a log of two entries with base index 1 is listed as
`1: ls` and `2: cd /tmp`, and the call returns `false`. -/
theorem do_builtin_history_example :
    do_builtin { exampleSys (fun _ => none) [] with
        history_list := some ["ls".toList, "cd /tmp".toList] }
        (some freshShell) (some ["history".toList]) exampleProc
      = .returned false (some freshShell)
          { cwd := "/".toList,
            trace := [.out "1: ls\n".toList, .out "2: cd /tmp\n".toList] } := by
  rfl

/-! ## Properties of `parse_args` -/

theorem parseOptions_versions (major minor : Int) (prog : CStr) (pre more : List Char)
    (hpre : ∀ x ∈ pre, x = 'v') (p : Proc) :
    parseOptions major minor prog (pre ++ more) p
      = parseOptions major minor prog more
          { p with
            trace := p.trace ++ List.replicate pre.length
              (.out ("Shell Version: ".toList ++ fmt_d major ++ ['.'] ++ fmt_d minor
                ++ ['\n'])) } := by
  induction pre generalizing p with
  | nil => simp
  | cons a r ih =>
    have ha : a = 'v' := hpre a (List.mem_cons_self _ _)
    subst ha
    rw [List.cons_append, parseOptions, if_pos rfl, ih (fun x hx => hpre x (List.mem_cons_of_mem _ hx))]
    simp [Proc.emit, List.replicate_succ]

/-- C13, as stated, fails: on the command line `shell -v` with version 1.0,
`parse_args` prints `Shell Version: 1.0` and returns to its caller; the process
has not terminated. -/
theorem parse_args_version_counterexample :
    parse_args 1 0 ["shell".toList, "-v".toList] exampleProc
        = .returned { cwd := "/".toList, trace := [.out "Shell Version: 1.0\n".toList] }
      ∧ ∀ status p, parse_args 1 0 ["shell".toList, "-v".toList] exampleProc
          ≠ .exited status p := by
  have h1 : parse_args 1 0 ["shell".toList, "-v".toList] exampleProc
      = .returned { cwd := "/".toList, trace := [.out "Shell Version: 1.0\n".toList] } := by
    decide
  refine ⟨h1, ?_⟩
  intro status p h
  rw [h1] at h
  cases h

/-- C13, amended: when every option character of the command line is `v`,
`parse_args` prints the version line `Shell Version: major.minor` once for each
of them and returns to its caller, without terminating the process; when the
option characters are some `v` followed by a first character that is not `v`,
it prints the version line once for each `v` before it, then the diagnostic of
`getopt` and the usage message on the error stream, and the process exits with
failure status. -/
theorem parse_args_spec (major minor : Int) (argv : List CStr) (p : Proc) :
    ((∀ c ∈ getoptChars argv.tail, c = 'v') →
        parse_args major minor argv p
          = .returned { p with
              trace := p.trace ++ List.replicate (getoptChars argv.tail).length
                (.out ("Shell Version: ".toList ++ fmt_d major ++ ['.'] ++ fmt_d minor
                  ++ ['\n'])) })
      ∧ (∀ pre c post, getoptChars argv.tail = pre ++ c :: post → (∀ x ∈ pre, x = 'v') →
          c ≠ 'v' →
          parse_args major minor argv p
            = .exited EXIT_FAILURE { p with
                trace := p.trace ++ List.replicate pre.length
                  (.out ("Shell Version: ".toList ++ fmt_d major ++ ['.'] ++ fmt_d minor
                    ++ ['\n']))
                  ++ [.err (argv.headD "(null)".toList ++ ": invalid option -- ".toList
                        ++ [Char.ofNat 39, c, Char.ofNat 39, '\n']),
                      .err ("Usage: ".toList ++ argv.headD "(null)".toList
                        ++ " [-v]\n".toList)] }) := by
  constructor
  · intro hall
    have := parseOptions_versions major minor (argv.headD "(null)".toList)
      (getoptChars argv.tail) [] hall p
    rw [List.append_nil] at this
    rw [parse_args, this, parseOptions]
  · intro pre c post hsplit hpre hc
    rw [parse_args, hsplit,
      parseOptions_versions major minor (argv.headD "(null)".toList) pre (c :: post) hpre p,
      parseOptions, if_neg hc]
    simp [Proc.emit]

/-- The examples of C13: `shell -v` returns after one version line; in
`shell -v -x` the flag `-x` is reached after the version line and the process
exits with failure status after the usage message. -/
theorem parse_args_examples :
    parse_args 1 0 ["shell".toList, "-v".toList] exampleProc
        = .returned { cwd := "/".toList, trace := [.out "Shell Version: 1.0\n".toList] }
      ∧ parse_args 1 0 ["shell".toList, "-v".toList, "-x".toList] exampleProc
        = .exited 1
            { cwd := "/".toList,
              trace := [.out "Shell Version: 1.0\n".toList,
                        .err ("shell: invalid option -- ".toList
                          ++ [Char.ofNat 39, 'x', Char.ofNat 39, '\n']),
                        .err "Usage: shell [-v]\n".toList] } := by
  decide

/-! ## Properties of `sh_init` -/

theorem ignoredSignals_append (a b : List Event) :
    ignoredSignals (a ++ b) = ignoredSignals a ++ ignoredSignals b := by
  induction a with
  | nil => rfl
  | cons e t ih => cases e <;> simp [ignoredSignals, ih]

theorem jobControlCalls_append (a b : List Event) :
    jobControlCalls (a ++ b) = jobControlCalls a ++ jobControlCalls b := by
  induction a with
  | nil => rfl
  | cons e t ih => cases e <;> simp [jobControlCalls, ih]

theorem sh_init_notty (sys : Sys) (tty : Tty) (s : Shell) (p : Proc) (h1 : tty.isatty = 0) :
    sh_init sys tty (some s) p
      = .exited EXIT_FAILURE
          (some { s with shell_terminal := STDIN_FILENO, shell_is_interactive := tty.isatty })
          (p.emit (.err "sh_init: Not running interactively.\n".toList)) := by
  simp only [sh_init]
  rw [if_pos h1]

theorem sh_init_setpgid_fails (sys : Sys) (tty : Tty) (s : Shell) (p : Proc)
    (h1 : tty.isatty ≠ 0) (h2 : tty.setpgid < 0) :
    ∃ s1 p1, sh_init sys tty (some s) p = .exited EXIT_FAILURE (some s1) p1 := by
  simp only [sh_init]
  rw [if_neg h1, if_pos h2]
  exact ⟨_, _, rfl⟩

theorem sh_init_tcsetpgrp_fails (sys : Sys) (tty : Tty) (s : Shell) (p : Proc)
    (h1 : tty.isatty ≠ 0) (h2 : ¬tty.setpgid < 0) (h3 : tty.tcsetpgrp < 0) :
    ∃ s1 p1, sh_init sys tty (some s) p = .exited EXIT_FAILURE (some s1) p1 := by
  simp only [sh_init]
  rw [if_neg h1, if_neg h2, if_pos h3]
  exact ⟨_, _, rfl⟩

theorem sh_init_tcgetattr_fails (sys : Sys) (tty : Tty) (s : Shell) (p : Proc)
    (h1 : tty.isatty ≠ 0) (h2 : ¬tty.setpgid < 0) (h3 : ¬tty.tcsetpgrp < 0)
    (h4 : tty.tcgetattr < 0) :
    ∃ s1 p1, sh_init sys tty (some s) p = .exited EXIT_FAILURE (some s1) p1 := by
  simp only [sh_init]
  rw [if_neg h1, if_neg h2, if_neg h3, if_pos h4]
  exact ⟨_, _, rfl⟩

theorem sh_init_ready (sys : Sys) (tty : Tty) (s : Shell) (p : Proc)
    (h1 : tty.isatty ≠ 0) (h2 : ¬tty.setpgid < 0) (h3 : ¬tty.tcsetpgrp < 0)
    (h4 : ¬tty.tcgetattr < 0) :
    sh_init sys tty (some s) p
      = .returned ()
          (some { shell_is_interactive := tty.isatty, shell_pgid := tty.getpid,
                  shell_tmodes := tty.tmodes, shell_terminal := STDIN_FILENO,
                  prompt := get_prompt sys tty.malloc_ok "MY_PROMPT".toList })
          { cwd := p.cwd,
            trace := p.trace ++ [.setpgid tty.getpid tty.getpid]
              ++ [.tcsetpgrp STDIN_FILENO tty.getpid] ++ [.tcgetattr STDIN_FILENO]
              ++ [Event.ignore Signal.SIGINT, Event.ignore Signal.SIGQUIT,
                  Event.ignore Signal.SIGTSTP, Event.ignore Signal.SIGTTIN,
                  Event.ignore Signal.SIGTTOU]
              ++ [.out ("Shell initialized: PGID=".toList ++ fmt_d tty.getpid
                    ++ ", Terminal FD=".toList ++ fmt_d STDIN_FILENO ++ ['\n'])] } := by
  simp only [sh_init]
  rw [if_neg h1, if_neg h2, if_neg h3, if_neg h4]
  rfl

/-- C17: with the terminal check, the process-group assignment, the foreground
acquisition and the terminal-mode query as oracle results, (1) if `sh_init`
returns, then standard input is a terminal and `setpgid` and `tcsetpgrp`
succeeded, and at that moment the terminal descriptor of the session is
standard input, its process-group id is the process id of the shell, its
prompt is the result of `get_prompt("MY_PROMPT")`, and `SIGINT`, `SIGQUIT`,
`SIGTSTP`, `SIGTTIN` and `SIGTTOU` are ignored; (2) on a present session, when
all four oracle calls succeed, `sh_init` does return; (3) if standard input is
not a terminal, or `setpgid` or `tcsetpgrp` fails, the process exits with
failure status; (4) when standard input is not a terminal, it exits with the
prompt field as it was and without a `setpgid`, `tcsetpgrp` or `tcgetattr` call
having been made. -/
theorem sh_init_spec (sys : Sys) (tty : Tty) (sh : Option Shell) (p : Proc) :
    (∀ sh1 p1, sh_init sys tty sh p = .returned () sh1 p1 →
        tty.isatty ≠ 0 ∧ 0 ≤ tty.setpgid ∧ 0 ≤ tty.tcsetpgrp
          ∧ ∃ s1, sh1 = some s1
            ∧ s1.shell_terminal = STDIN_FILENO
            ∧ s1.shell_pgid = tty.getpid
            ∧ s1.prompt = get_prompt sys tty.malloc_ok "MY_PROMPT".toList
            ∧ ∀ sig : Signal, sig ∈ ignoredSignals p1.trace)
      ∧ (∀ s, sh = some s → tty.isatty ≠ 0 → 0 ≤ tty.setpgid → 0 ≤ tty.tcsetpgrp →
          0 ≤ tty.tcgetattr → ∃ sh1 p1, sh_init sys tty sh p = .returned () sh1 p1)
      ∧ ((tty.isatty = 0 ∨ tty.setpgid < 0 ∨ tty.tcsetpgrp < 0) →
          ∃ sh1 p1, sh_init sys tty sh p = .exited EXIT_FAILURE sh1 p1)
      ∧ (∀ s, sh = some s → tty.isatty = 0 →
          ∃ s1 p1, sh_init sys tty sh p = .exited EXIT_FAILURE (some s1) p1
            ∧ s1.prompt = s.prompt
            ∧ jobControlCalls p1.trace = jobControlCalls p.trace) := by
  cases sh with
  | none =>
    refine ⟨?_, ?_, ?_, ?_⟩
    · intro sh1 p1 h; simp [sh_init] at h
    · intro s hs; cases hs
    · intro _; exact ⟨_, _, rfl⟩
    · intro s hs; cases hs
  | some s =>
    have hcases : (∃ s1 p1, sh_init sys tty (some s) p = .exited EXIT_FAILURE (some s1) p1)
        ∨ (tty.isatty ≠ 0 ∧ ¬tty.setpgid < 0 ∧ ¬tty.tcsetpgrp < 0 ∧ ¬tty.tcgetattr < 0) := by
      by_cases h1 : tty.isatty = 0
      · exact Or.inl ⟨_, _, sh_init_notty sys tty s p h1⟩
      · by_cases h2 : tty.setpgid < 0
        · exact Or.inl (sh_init_setpgid_fails sys tty s p h1 h2)
        · by_cases h3 : tty.tcsetpgrp < 0
          · exact Or.inl (sh_init_tcsetpgrp_fails sys tty s p h1 h2 h3)
          · by_cases h4 : tty.tcgetattr < 0
            · exact Or.inl (sh_init_tcgetattr_fails sys tty s p h1 h2 h3 h4)
            · exact Or.inr ⟨h1, h2, h3, h4⟩
    refine ⟨?_, ?_, ?_, ?_⟩
    · intro sh1 p1 h
      rcases hcases with ⟨s1, p2, hex⟩ | ⟨h1, h2, h3, h4⟩
      · rw [hex] at h; cases h
      · rw [sh_init_ready sys tty s p h1 h2 h3 h4] at h
        cases h
        refine ⟨h1, by omega, by omega, _, rfl, rfl, rfl, rfl, ?_⟩
        intro sig
        simp only [ignoredSignals_append, ignoredSignals]
        cases sig <;> simp
    · intro s0 _ h1 h2 h3 h4
      exact ⟨_, _, sh_init_ready sys tty s p h1 (by omega) (by omega) (by omega)⟩
    · intro hfail
      rcases hcases with ⟨s1, p2, hex⟩ | ⟨h1, h2, h3, h4⟩
      · exact ⟨_, _, hex⟩
      · rcases hfail with h | h | h
        · exact absurd h h1
        · exact absurd h h2
        · exact absurd h h3
    · intro s0 hs h1
      cases hs
      refine ⟨_, _, sh_init_notty sys tty s p h1, rfl, ?_⟩
      simp [Proc.emit, jobControlCalls_append, jobControlCalls]

/-- The examples of C17: on a terminal where every call succeeds, `sh_init` on a
fresh session returns with the descriptor 0, the process id 4242 as
process-group id, the default prompt and the saved modes; with standard input
not a terminal, it exits with status 1 after the diagnostic alone. -/
theorem sh_init_examples :
    sh_init (exampleSys (fun _ => none) []) exampleTty (some freshShell) exampleProc
        = .returned ()
            (some { shell_is_interactive := 1, shell_pgid := 4242, shell_tmodes := 7,
                    shell_terminal := 0, prompt := some "shell>".toList })
            { cwd := "/".toList,
              trace := [.setpgid 4242 4242, .tcsetpgrp 0 4242, .tcgetattr 0,
                        Event.ignore Signal.SIGINT, Event.ignore Signal.SIGQUIT,
                        Event.ignore Signal.SIGTSTP, Event.ignore Signal.SIGTTIN,
                        Event.ignore Signal.SIGTTOU,
                        .out "Shell initialized: PGID=4242, Terminal FD=0\n".toList] }
      ∧ sh_init (exampleSys (fun _ => none) []) { exampleTty with isatty := 0 }
          (some freshShell) exampleProc
        = .exited 1 (some freshShell)
            { cwd := "/".toList,
              trace := [.err "sh_init: Not running interactively.\n".toList] } := by
  constructor <;> rfl

/-! ## The reads of `change_dir` in the argument vector -/

theorem chdirCalls_printHistory (b : Int) (hist : List CStr) (i : Nat) :
    chdirCalls (printHistory b hist i) = [] := by
  induction hist generalizing i with
  | nil => rfl
  | cons e r ih => simp [printHistory, chdirCalls, ih]

theorem change_dir_congr (sys : Sys) (dir1 dir2 : List CStr) (p : Proc)
    (h : dir1[1]? = dir2[1]?) : change_dir sys dir1 p = change_dir sys dir2 p := by
  simp only [change_dir, h]

/-- C19: whenever a call of `do_builtin` has gone through `change_dir` (it
returned `true`, or a `chdir` call was added to the trace), the argument
vector was present and its first element was present and equal to `cd`, so
index 1, the only index `change_dir` reads, is a slot of the vector: an element
or the sentinel. And `change_dir` depends on the vector through its slot 1
alone: two vectors with the same slot 1 give the same result and the same
state, so elements after the second affect neither, in `change_dir` or in
`do_builtin`. -/
theorem change_dir_read_in_bounds (sys : Sys) (sh : Option Shell) (p : Proc) :
    (∀ argv b sh1 p1, do_builtin sys sh argv p = .returned b sh1 p1 →
        (b = true ∨ chdirCalls p1.trace ≠ chdirCalls p.trace) →
        ∃ v, argv = some v ∧ v.head? = some "cd".toList ∧ slotInBounds v 1)
      ∧ (∀ dir1 dir2 : List CStr, dir1[1]? = dir2[1]? →
          change_dir sys dir1 p = change_dir sys dir2 p)
      ∧ (∀ (a b : CStr) (rest1 rest2 : List CStr),
          change_dir sys (a :: b :: rest1) p = change_dir sys (a :: b :: rest2) p
            ∧ do_builtin sys sh (some ("cd".toList :: b :: rest1)) p
                = do_builtin sys sh (some ("cd".toList :: b :: rest2)) p) := by
  refine ⟨?_, fun dir1 dir2 h => change_dir_congr sys dir1 dir2 p h, ?_⟩
  · intro argv b sh1 p1 hret hcall
    cases argv with
    | none =>
      simp only [do_builtin] at hret
      cases hret
      simp at hcall
    | some v =>
      cases v with
      | nil =>
        simp only [do_builtin] at hret
        cases hret
        simp at hcall
      | cons a rest =>
        by_cases hcd : a = "cd".toList
        · exact ⟨a :: rest, rfl, by rw [hcd]; rfl, by simp [slotInBounds]⟩
        · exfalso
          simp only [do_builtin] at hret
          by_cases hex : a = "exit".toList
          · rw [if_pos hex] at hret
            cases hsd : sh_destroy sh p <;> rw [hsd] at hret <;> cases hret
          · rw [if_neg hex, if_neg hcd] at hret
            by_cases hh : a = "history".toList
            · rw [if_pos hh] at hret
              cases hl : sys.history_list with
              | none =>
                rw [hl] at hret
                cases hret
                simp at hcall
              | some l =>
                rw [hl] at hret
                cases hret
                simp [chdirCalls_append, chdirCalls_printHistory] at hcall
            · rw [if_neg hh] at hret
              cases hret
              simp at hcall
  · intro a b rest1 rest2
    have hc : change_dir sys (a :: b :: rest1) p = change_dir sys (a :: b :: rest2) p :=
      change_dir_congr sys _ _ p (by simp)
    have hc2 : change_dir sys ("cd".toList :: b :: rest1) p
        = change_dir sys ("cd".toList :: b :: rest2) p :=
      change_dir_congr sys _ _ p (by simp)
    refine ⟨hc, ?_⟩
    have h1 : "cd".toList ≠ "exit".toList := by decide
    simp only [do_builtin, if_neg h1, if_true, hc2]

/-- The example of C19: `cd /tmp extra more` does what `cd /tmp` does. -/
theorem change_dir_extra_args_example :
    change_dir (exampleSys (fun _ => none) ["/tmp".toList])
        ["cd".toList, "/tmp".toList, "extra".toList, "more".toList] exampleProc
      = change_dir (exampleSys (fun _ => none) ["/tmp".toList])
        ["cd".toList, "/tmp".toList] exampleProc
    ∧ change_dir (exampleSys (fun _ => none) ["/tmp".toList])
        ["cd".toList, "/tmp".toList] exampleProc
      = (0, { cwd := "/tmp".toList, trace := [.chdir "/tmp".toList] }) := by
  decide

end Lab
